import Mathlib

/-!
# Verification of the EEZ-Studio drawing module (draw cache, cache ids, renderers)

A shallow embedding of `draw.tsx` (the offscreen-canvas draw cache and the
primitive renderers) and of `ScpiEnumMember.check`, with theorems settling the
spec's claims about them.

Conventions of the embedding:
* JavaScript numbers are modelled as exact rationals (`ℚ`); `Math.floor` is
  `Int.floor`, `Math.round q` is `⌊q + 1/2⌋` (round half toward +∞, as in JS).
  Where JS would produce `NaN`/`Infinity` (division by zero, arithmetic on an
  `undefined` style property) the model substitutes the documented fallback
  (division by zero yields 0, a missing numeric style property is taken as 0);
  theorems that depend on such values state the resolved values explicitly.
* A JS `Map` is modelled as an association list with insertion-order keys;
  a rendered `HTMLCanvasElement` is abstracted to an arbitrary value of a
  type parameter `γ` (for the cache claims) or to the list of lcd paint
  operations the render callback issues (for the renderer claims).
* JS truthiness of strings ("" and `undefined` are falsy) is modelled
  explicitly at each use.
-/

namespace Studio

/-! ## The draw cache (`draw.tsx` lines 19, 54–98)

`cache`/`cacheMap` are module-level state; `drawFromCache` is modelled as a
state-passing function.  The render callback only paints a freshly created
canvas, so its effect is abstracted to the value `fresh : γ` it would produce;
on a hit the callback is not invoked and the stored canvas is returned
(an `HTMLCanvasElement` is always truthy, so `mapGet … = some c` is a hit). -/

def MAX_DRAW_CACHE_SIZE : Nat := 1000

structure DrawCacheState (γ : Type) where
  cache : List String
  cacheMap : List (String × γ)
deriving Repr

def initialCacheState {γ : Type} : DrawCacheState γ := ⟨[], []⟩

/-- `Map.get`. -/
def mapGet {γ : Type} : List (String × γ) → String → Option γ
  | [], _ => none
  | p :: rest, k => if p.1 = k then some p.2 else mapGet rest k

/-- `Map.delete` (under the nodup-keys invariant a filter is the same). -/
def mapDelete {γ : Type} : List (String × γ) → String → List (String × γ)
  | [], _ => []
  | p :: rest, k => if p.1 = k then mapDelete rest k else p :: mapDelete rest k

/-- `Map.set`: replaces in place when the key is present, else appends
(JS `Map` preserves insertion order). -/
def mapSet {γ : Type} (m : List (String × γ)) (k : String) (v : γ) :
    List (String × γ) :=
  if (mapGet m k).isSome then
    m.map (fun p => if p.1 = k then (k, v) else p)
  else m ++ [(k, v)]

/-- `drawFromCache(section, id, w, h, callback)`:  `id == null` renders freshly
and stores nothing; otherwise the composite key is `section + "." + id`, a hit
returns the stored canvas, and a miss renders, evicts the oldest-inserted key
when the cache is full (`cache.shift()`; the `if (cacheKey)` guard skips the
map delete for a falsy — empty — key), then appends and stores.
`w`/`h` only size the fresh canvas and are not part of the state. -/
def drawFromCache {γ : Type} (st : DrawCacheState γ) (sectionName : String)
    (idOpt : Option String) (fresh : γ) : DrawCacheState γ × γ :=
  match idOpt with
  | none => (st, fresh)
  | some rawId =>
    let id := sectionName ++ "." ++ rawId
    match mapGet st.cacheMap id with
    | some canvas => (st, canvas)
    | none =>
      let st1 :=
        if st.cache.length = MAX_DRAW_CACHE_SIZE then
          match st.cache with
          | [] => st
          | k :: rest =>
            { cache := rest
              cacheMap := if k = "" then st.cacheMap else mapDelete st.cacheMap k }
        else st
      ({ cache := st1.cache ++ [id], cacheMap := mapSet st1.cacheMap id fresh }, fresh)

/-- A sequence of `drawFromCache` calls: each operation is
(section, id-or-null, the canvas a fresh render would produce). -/
def runOps {γ : Type} (st : DrawCacheState γ)
    (ops : List (String × Option String × γ)) : DrawCacheState γ :=
  ops.foldl (fun s o => (drawFromCache s o.1 o.2.1 o.2.2).1) st

/-- A sequence of non-null-key calls in one section. -/
def runInserts {γ : Type} (st : DrawCacheState γ) (sectionName : String)
    (ops : List (String × γ)) : DrawCacheState γ :=
  ops.foldl (fun s kv => (drawFromCache s sectionName (some kv.1) kv.2).1) st

/-- The internal invariant of the two cache structures: the insertion-order
list has no duplicates and no empty key, it lists exactly the map's keys,
and it never exceeds the capacity. -/
def CacheInv {γ : Type} (st : DrawCacheState γ) : Prop :=
  st.cache.Nodup ∧
  (st.cacheMap.map Prod.fst).Nodup ∧
  (∀ k, k ∈ st.cacheMap.map Prod.fst ↔ k ∈ st.cache) ∧
  "" ∉ st.cache ∧
  st.cache.length ≤ MAX_DRAW_CACHE_SIZE

/-! ### Association-list lemmas -/

theorem mapGet_eq_none_iff {γ : Type} (m : List (String × γ)) (k : String) :
    mapGet m k = none ↔ k ∉ m.map Prod.fst := by
  induction m with
  | nil => simp [mapGet]
  | cons p rest ih =>
    by_cases h : p.1 = k <;> simp [mapGet, h, ih, Ne, eq_comm (a := k)]

theorem mapGet_isSome_iff {γ : Type} (m : List (String × γ)) (k : String) :
    (mapGet m k).isSome ↔ k ∈ m.map Prod.fst := by
  induction m with
  | nil => simp [mapGet]
  | cons p rest ih =>
    by_cases h : p.1 = k <;> simp [mapGet, h, ih, Ne, eq_comm (a := k)]

theorem mapDelete_keys {γ : Type} (m : List (String × γ)) (k : String) :
    (mapDelete m k).map Prod.fst = (m.map Prod.fst).filter (fun x => x ≠ k) := by
  induction m with
  | nil => simp [mapDelete]
  | cons p rest ih =>
    by_cases h : p.1 = k <;> simp [mapDelete, h, ih, List.filter_cons]

theorem mapSet_keys_of_not_mem {γ : Type} (m : List (String × γ)) (k : String)
    (v : γ) (h : mapGet m k = none) :
    (mapSet m k v).map Prod.fst = m.map Prod.fst ++ [k] := by
  simp [mapSet, h]

theorem mapGet_append_not_mem {γ : Type} (m₁ m₂ : List (String × γ)) (k : String)
    (h : mapGet m₁ k = none) : mapGet (m₁ ++ m₂) k = mapGet m₂ k := by
  induction m₁ with
  | nil => simp
  | cons p rest ih =>
    by_cases hp : p.1 = k
    · simp [mapGet, hp] at h
    · simp [mapGet, hp] at h ⊢
      exact ih h

theorem mapGet_mapSet_self {γ : Type} (m : List (String × γ)) (k : String) (v : γ)
    (h : mapGet m k = none) : mapGet (mapSet m k v) k = some v := by
  rw [mapSet, h]
  simp only [Option.isSome_none, Bool.false_eq_true, if_false]
  rw [mapGet_append_not_mem _ _ _ h]
  simp [mapGet]

/-! ### Step lemmas for `drawFromCache` -/

theorem cacheKey_ne_empty (s r : String) : s ++ "." ++ r ≠ "" := by
  intro h
  have h' := congrArg String.length h
  rw [String.length_append, String.length_append] at h'
  have h1 : ("." : String).length = 1 := rfl
  have h2 : ("" : String).length = 0 := rfl
  omega

/-- A null key renders freshly, returns the fresh canvas and leaves the cache
untouched. -/
theorem drawFromCache_null {γ : Type} (st : DrawCacheState γ) (s : String)
    (fresh : γ) : drawFromCache st s none fresh = (st, fresh) := rfl

/-- A hit returns the stored canvas and leaves the state unchanged. -/
theorem drawFromCache_hit {γ : Type} (st : DrawCacheState γ) (s r : String)
    (fresh c : γ) (h : mapGet st.cacheMap (s ++ "." ++ r) = some c) :
    drawFromCache st s (some r) fresh = (st, c) := by
  simp [drawFromCache, h]

/-- The state after a miss below capacity. -/
theorem drawFromCache_miss_below {γ : Type} (st : DrawCacheState γ) (s r : String)
    (fresh : γ) (hmiss : mapGet st.cacheMap (s ++ "." ++ r) = none)
    (hbelow : st.cache.length ≠ MAX_DRAW_CACHE_SIZE) :
    (drawFromCache st s (some r) fresh).1 =
      ⟨st.cache ++ [s ++ "." ++ r], mapSet st.cacheMap (s ++ "." ++ r) fresh⟩ := by
  simp [drawFromCache, hmiss, hbelow]

/-- The state after a miss at capacity: exactly the oldest-inserted key is
shifted off and deleted, then the new key is appended and stored. -/
theorem drawFromCache_miss_at_cap {γ : Type} (st : DrawCacheState γ)
    (s r : String) (fresh : γ) (k : String) (rest : List String)
    (hmiss : mapGet st.cacheMap (s ++ "." ++ r) = none)
    (hc : st.cache = k :: rest)
    (hfull : st.cache.length = MAX_DRAW_CACHE_SIZE) (hkne : k ≠ "") :
    (drawFromCache st s (some r) fresh).1 =
      ⟨rest ++ [s ++ "." ++ r],
        mapSet (mapDelete st.cacheMap k) (s ++ "." ++ r) fresh⟩ := by
  have hfull' : rest.length + 1 = MAX_DRAW_CACHE_SIZE := by
    rw [hc] at hfull
    simpa using hfull
  simp [drawFromCache, hmiss, hc, hfull', hkne]

/-- On a miss, the new insertion-order list is the old one with the key
appended, truncated to capacity by dropping from the front. -/
theorem drawFromCache_miss_cache {γ : Type} (st : DrawCacheState γ) (s r : String)
    (fresh : γ) (hInv : CacheInv st)
    (hmiss : mapGet st.cacheMap (s ++ "." ++ r) = none) :
    (drawFromCache st s (some r) fresh).1.cache =
      (st.cache ++ [s ++ "." ++ r]).drop
        (st.cache.length + 1 - MAX_DRAW_CACHE_SIZE) := by
  obtain ⟨_, _, _, hne, hlen⟩ := hInv
  by_cases hfull : st.cache.length = MAX_DRAW_CACHE_SIZE
  · match hc : st.cache with
    | [] => rw [hc] at hfull; simp [MAX_DRAW_CACHE_SIZE] at hfull
    | k :: rest =>
      have hkne : k ≠ "" := fun h => hne (hc ▸ h ▸ List.mem_cons_self k rest)
      rw [drawFromCache_miss_at_cap st s r fresh k rest hmiss hc hfull hkne]
      rw [hc] at hfull
      simp only [List.length_cons] at hfull
      have h1 : rest.length + 1 + 1 - MAX_DRAW_CACHE_SIZE = 1 := by omega
      simp [h1]
  · rw [drawFromCache_miss_below st s r fresh hmiss hfull]
    have h0 : st.cache.length + 1 - MAX_DRAW_CACHE_SIZE = 0 := by omega
    simp [h0]

/-- Every call preserves the cache invariant. -/
theorem cacheInv_step {γ : Type} (st : DrawCacheState γ) (s : String)
    (idOpt : Option String) (fresh : γ) (hInv : CacheInv st) :
    CacheInv (drawFromCache st s idOpt fresh).1 := by
  obtain ⟨hnd, hndk, hmem, hne, hlen⟩ := hInv
  match idOpt with
  | none => exact ⟨hnd, hndk, hmem, hne, hlen⟩
  | some r =>
    match hget : mapGet st.cacheMap (s ++ "." ++ r) with
    | some c =>
      rw [show (drawFromCache st s (some r) fresh).1 = st by
        rw [drawFromCache_hit st s r fresh c hget]]
      exact ⟨hnd, hndk, hmem, hne, hlen⟩
    | none =>
      have hkmem : s ++ "." ++ r ∉ st.cache := by
        rw [← hmem]
        rw [mapGet_eq_none_iff] at hget
        exact hget
      have hkne : s ++ "." ++ r ≠ "" := cacheKey_ne_empty s r
      by_cases hfull : st.cache.length = MAX_DRAW_CACHE_SIZE
      · match hc : st.cache with
        | [] => rw [hc] at hfull; simp [MAX_DRAW_CACHE_SIZE] at hfull
        | k :: rest =>
          rw [hc] at hnd hmem hne hkmem
          have hkne' : k ≠ "" := fun h => hne (h ▸ List.mem_cons_self k rest)
          rw [drawFromCache_miss_at_cap st s r fresh k rest hget hc hfull hkne']
          have hdelget : mapGet (mapDelete st.cacheMap k) (s ++ "." ++ r) = none := by
            rw [mapGet_eq_none_iff, mapDelete_keys, List.mem_filter]
            intro ⟨hk, _⟩
            exact hkmem ((hmem _).mp hk)
          have hknotrest : k ∉ rest := (List.nodup_cons.mp hnd).1
          have hndrest : rest.Nodup := (List.nodup_cons.mp hnd).2
          refine ⟨?_, ?_, ?_, ?_, ?_⟩
          · rw [List.nodup_append]
            exact ⟨hndrest, List.nodup_singleton _,
              fun a ha hb => by
                simp at hb
                exact hkmem (hb ▸ List.mem_cons_of_mem k ha)⟩
          · rw [mapSet_keys_of_not_mem _ _ _ hdelget]
            rw [List.nodup_append]
            refine ⟨?_, List.nodup_singleton _, ?_⟩
            · rw [mapDelete_keys]
              exact hndk.filter _
            · intro a ha hb
              simp at hb
              subst hb
              rw [mapDelete_keys, List.mem_filter] at ha
              exact hkmem ((hmem _).mp ha.1)
          · intro k'
            rw [mapSet_keys_of_not_mem _ _ _ hdelget, List.mem_append,
              List.mem_append, mapDelete_keys, List.mem_filter, hmem k']
            simp only [List.mem_cons, List.mem_singleton, decide_not,
              decide_eq_true_eq]
            constructor
            · rintro (⟨h1 | h1, h2⟩ | h1)
              · exact absurd h1 (by simpa using h2)
              · exact Or.inl h1
              · exact Or.inr h1
            · rintro (h1 | h1)
              · exact Or.inl ⟨Or.inr h1, by simp; rintro rfl; exact hknotrest h1⟩
              · exact Or.inr h1
          · intro hmem''
            rcases List.mem_append.mp hmem'' with h | h
            · exact hne (List.mem_cons_of_mem k h)
            · simp at h
              exact hkne h.symm
          · rw [hc] at hfull
            simp only [List.length_cons] at hfull
            simp only [List.length_append, List.length_singleton]
            omega
      · rw [drawFromCache_miss_below st s r fresh hget hfull]
        refine ⟨?_, ?_, ?_, ?_, ?_⟩
        · rw [List.nodup_append]
          exact ⟨hnd, List.nodup_singleton _, fun a ha hb => by
            simp at hb
            exact hkmem (hb ▸ ha)⟩
        · rw [mapSet_keys_of_not_mem _ _ _ hget]
          rw [List.nodup_append]
          refine ⟨hndk, List.nodup_singleton _, ?_⟩
          intro a ha hb
          simp at hb
          subst hb
          exact hkmem ((hmem _).mp ha)
        · intro k'
          rw [mapSet_keys_of_not_mem _ _ _ hget, List.mem_append, List.mem_append,
            hmem k']
        · intro hmem''
          rcases List.mem_append.mp hmem'' with h | h
          · exact hne h
          · simp at h
            exact hkne h.symm
        · simp only [List.length_append, List.length_singleton]
          omega

theorem cacheInv_initial {γ : Type} : CacheInv (initialCacheState (γ := γ)) := by
  refine ⟨List.nodup_nil, List.nodup_nil, ?_, ?_, ?_⟩ <;>
    simp [initialCacheState, MAX_DRAW_CACHE_SIZE]

theorem cacheInv_runOps_of {γ : Type} (ops : List (String × Option String × γ))
    (st : DrawCacheState γ) (h : CacheInv st) : CacheInv (runOps st ops) := by
  induction ops generalizing st with
  | nil => exact h
  | cons op rest ih => exact ih _ (cacheInv_step st op.1 op.2.1 op.2.2 h)

theorem runInserts_eq_runOps {γ : Type} (st : DrawCacheState γ) (s : String)
    (ops : List (String × γ)) :
    runInserts st s ops = runOps st (ops.map (fun kv => (s, some kv.1, kv.2))) := by
  simp [runInserts, runOps, List.foldl_map]

theorem cacheInv_runInserts_of {γ : Type} (ops : List (String × γ)) (s : String)
    (st : DrawCacheState γ) (h : CacheInv st) : CacheInv (runInserts st s ops) := by
  rw [runInserts_eq_runOps]
  exact cacheInv_runOps_of _ _ h

/-- Inserting fresh (never-seen, pairwise distinct) keys: the insertion-order
list behaves as a FIFO queue bounded by the capacity. -/
theorem runInserts_fresh_cache {γ : Type} (s : String) :
    ∀ (ops : List (String × γ)) (st : DrawCacheState γ), CacheInv st →
      (st.cache ++ ops.map (fun kv => s ++ "." ++ kv.1)).Nodup →
      (runInserts st s ops).cache =
        (st.cache ++ ops.map (fun kv => s ++ "." ++ kv.1)).drop
          (st.cache.length + ops.length - MAX_DRAW_CACHE_SIZE) := by
  intro ops
  induction ops with
  | nil =>
    intro st hInv _
    have hlen := hInv.2.2.2.2
    have h0 : st.cache.length - MAX_DRAW_CACHE_SIZE = 0 := by omega
    simp [runInserts, h0]
  | cons kv rest ih =>
    intro st hInv hnd
    have hlen := hInv.2.2.2.2
    have hkey : s ++ "." ++ kv.1 ∉ st.cache := by
      intro hmem
      rcases List.nodup_append.mp hnd with ⟨_, _, hdisj⟩
      exact hdisj hmem (by simp)
    have hmiss : mapGet st.cacheMap (s ++ "." ++ kv.1) = none := by
      rw [mapGet_eq_none_iff]
      intro hmem
      exact hkey ((hInv.2.2.1 _).mp hmem)
    have hstep := drawFromCache_miss_cache st s kv.1 kv.2 hInv hmiss
    have hInv' := cacheInv_step st s (some kv.1) kv.2 hInv
    have hD : st.cache.length + 1 - MAX_DRAW_CACHE_SIZE ≤
        (st.cache ++ [s ++ "." ++ kv.1]).length := by
      simp only [List.length_append, List.length_singleton]
      omega
    have hnd' : ((drawFromCache st s (some kv.1) kv.2).1.cache ++
        rest.map (fun kv => s ++ "." ++ kv.1)).Nodup := by
      rw [hstep]
      have hsub : ((st.cache ++ [s ++ "." ++ kv.1]).drop
            (st.cache.length + 1 - MAX_DRAW_CACHE_SIZE) ++
          rest.map (fun kv => s ++ "." ++ kv.1)).Sublist
          ((st.cache ++ [s ++ "." ++ kv.1]) ++
            rest.map (fun kv => s ++ "." ++ kv.1)) :=
        (List.drop_sublist _ _).append (List.Sublist.refl _)
      refine List.Nodup.sublist hsub ?_
      rw [List.append_assoc, List.singleton_append]
      simpa using hnd
    have hrun : runInserts st s (kv :: rest) =
        runInserts (drawFromCache st s (some kv.1) kv.2).1 s rest := rfl
    rw [hrun, ih _ hInv' hnd']
    have e1 : (drawFromCache st s (some kv.1) kv.2).1.cache ++
        rest.map (fun kv => s ++ "." ++ kv.1) =
        ((st.cache ++ [s ++ "." ++ kv.1]) ++
          rest.map (fun kv => s ++ "." ++ kv.1)).drop
          (st.cache.length + 1 - MAX_DRAW_CACHE_SIZE) := by
      rw [hstep, List.drop_append_of_le_length hD]
    rw [e1, List.drop_drop]
    have hlendrop : (drawFromCache st s (some kv.1) kv.2).1.cache.length =
        st.cache.length + 1 - (st.cache.length + 1 - MAX_DRAW_CACHE_SIZE) := by
      rw [hstep]
      simp [List.length_drop]
    rw [hlendrop]
    have harith :
        st.cache.length + 1 - MAX_DRAW_CACHE_SIZE +
            (st.cache.length + 1 - (st.cache.length + 1 - MAX_DRAW_CACHE_SIZE) +
              rest.length - MAX_DRAW_CACHE_SIZE) =
          st.cache.length + (kv :: rest).length - MAX_DRAW_CACHE_SIZE := by
      simp only [List.length_cons]
      omega
    rw [harith]
    simp [List.append_assoc]

/-- Two nodup lists with the same members have the same length. -/
theorem length_eq_of_nodup_of_mem_iff {l₁ l₂ : List String} (h₁ : l₁.Nodup)
    (h₂ : l₂.Nodup) (h : ∀ a, a ∈ l₁ ↔ a ∈ l₂) : l₁.length = l₂.length :=
  ((List.perm_ext_iff_of_nodup h₁ h₂).mpr h).length_eq

/-! ### Claim C1 -/

/-- The full conclusion of claim C1 (stated over the definitions above):
after inserting the distinct keys of `ops` (more than 1000 of them) into the
empty cache, the store holds exactly the 1000 most-recently-inserted keys,
each backed by a map entry; a hit never changes the state; and a miss at
capacity evicts exactly the single oldest-inserted key. -/
def C1Conclusion (γ : Type) (s : String) (ops : List (String × γ)) : Prop :=
  ((runInserts (initialCacheState (γ := γ)) s ops).cache =
      (ops.map (fun kv => s ++ "." ++ kv.1)).drop (ops.length - 1000) ∧
    (runInserts (initialCacheState (γ := γ)) s ops).cache.length = 1000 ∧
    (runInserts (initialCacheState (γ := γ)) s ops).cacheMap.length = 1000 ∧
    ∀ k ∈ (runInserts (initialCacheState (γ := γ)) s ops).cache,
      (mapGet (runInserts (initialCacheState (γ := γ)) s ops).cacheMap k).isSome) ∧
  (∀ (st : DrawCacheState γ) (r : String) (c canvas : γ),
      mapGet st.cacheMap (s ++ "." ++ r) = some canvas →
      drawFromCache st s (some r) c = (st, canvas)) ∧
  (∀ (st : DrawCacheState γ) (r : String) (c : γ),
      CacheInv st → st.cache.length = 1000 →
      mapGet st.cacheMap (s ++ "." ++ r) = none →
      (drawFromCache st s (some r) c).1.cache =
        st.cache.tail ++ [s ++ "." ++ r])

/-- C1: the draw cache never holds more than 1000 entries: after inserting
N > 1000 distinct non-null keys the store holds exactly 1000 entries, namely
the 1000 most-recently-inserted keys; on an insertion at capacity exactly the
single oldest-inserted key is evicted first; and cache hits in between leave
the state (hence the eviction order) completely unchanged. -/
theorem drawFromCache_capacity_bound {γ : Type} (s : String)
    (ops : List (String × γ))
    (hnd : (ops.map (fun kv => s ++ "." ++ kv.1)).Nodup)
    (hN : 1000 < ops.length) : C1Conclusion γ s ops := by
  have hMAX : MAX_DRAW_CACHE_SIZE = 1000 := rfl
  have hfin := runInserts_fresh_cache s ops initialCacheState cacheInv_initial
    (by simpa [initialCacheState] using hnd)
  have hInvFin : CacheInv (runInserts (initialCacheState (γ := γ)) s ops) :=
    cacheInv_runInserts_of ops s _ cacheInv_initial
  obtain ⟨hndFin, hndkFin, hmemFin, _, _⟩ := hInvFin
  have hcache : (runInserts (initialCacheState (γ := γ)) s ops).cache =
      (ops.map (fun kv => s ++ "." ++ kv.1)).drop (ops.length - 1000) := by
    rw [hfin]
    simp [initialCacheState, hMAX]
  have hcachelen : (runInserts (initialCacheState (γ := γ)) s ops).cache.length
      = 1000 := by
    rw [hcache, List.length_drop, List.length_map]
    omega
  refine ⟨⟨hcache, hcachelen, ?_, ?_⟩, ?_, ?_⟩
  · have := length_eq_of_nodup_of_mem_iff hndkFin hndFin hmemFin
    rw [← List.length_map _ Prod.fst, this, hcachelen]
  · intro k hk
    rw [mapGet_isSome_iff]
    exact (hmemFin k).mpr hk
  · intro st r c canvas hget
    exact drawFromCache_hit st s r c canvas hget
  · intro st r c hInv hlen hmiss
    rw [drawFromCache_miss_cache st s r c hInv hmiss, hlen, hMAX]
    have h1 : 1000 + 1 - 1000 = 1 := by omega
    rw [h1]
    match hc : st.cache with
    | [] => rw [hc] at hlen; simp at hlen
    | k :: rest => simp

/-- Concrete input for the C1 witness: 1001 pairwise distinct keys. -/
def c1WitnessOps : List (String × Unit) :=
  (List.range 1001).map (fun i => (String.mk (List.replicate i 'a'), ()))

theorem c1WitnessOps_keys_nodup :
    (c1WitnessOps.map (fun kv => "s" ++ "." ++ kv.1)).Nodup := by
  rw [c1WitnessOps, List.map_map]
  refine List.Nodup.map ?_ (List.nodup_range 1001)
  intro i j h
  have h' := congrArg String.length h
  simp only [Function.comp_apply] at h'
  simp only [String.length_append] at h'
  have hi : (String.mk (List.replicate i 'a')).length = i := by
    simp [String.length]
  have hj : (String.mk (List.replicate j 'a')).length = j := by
    simp [String.length]
  rw [hi, hj] at h'
  omega

theorem drawFromCache_capacity_bound_witness :
    ((c1WitnessOps.map (fun kv => "s" ++ "." ++ kv.1)).Nodup ∧
      1000 < c1WitnessOps.length) ∧ C1Conclusion Unit "s" c1WitnessOps := by
  have h1 := c1WitnessOps_keys_nodup
  have h2 : 1000 < c1WitnessOps.length := by
    rw [c1WitnessOps, List.length_map, List.length_range]
    omega
  exact ⟨⟨h1, h2⟩, drawFromCache_capacity_bound "s" c1WitnessOps h1 h2⟩

/-! ### Claim C3 -/

/-- C3: a `null` key bypasses the cache entirely: the call returns the freshly
rendered canvas (never a stored one) and leaves the cache contents and size
unchanged; two successive null-key calls each return their own fresh render. -/
theorem drawFromCache_null_bypass {γ : Type} (st : DrawCacheState γ)
    (s₁ s₂ : String) (c₁ c₂ : γ) :
    drawFromCache st s₁ none c₁ = (st, c₁) ∧
    (drawFromCache (drawFromCache st s₁ none c₁).1 s₂ none c₂ =
      ((drawFromCache st s₁ none c₁).1, c₂)) ∧
    (drawFromCache st s₁ none c₁).1.cache = st.cache ∧
    (drawFromCache st s₁ none c₁).1.cacheMap = st.cacheMap ∧
    (drawFromCache (drawFromCache st s₁ none c₁).1 s₂ none c₂).1 = st :=
  ⟨rfl, rfl, rfl, rfl, rfl⟩

/-! ### Claim C9 -/

/-- C9: after any sequence of `drawFromCache` calls (hits, miss-inserts and
null-key calls) starting from the initial empty state, the insertion-order
list has no duplicate keys, its entries are exactly the keys of the map, and
its length equals the map's size. -/
theorem drawCache_list_map_sync {γ : Type}
    (ops : List (String × Option String × γ)) :
    (runOps (initialCacheState (γ := γ)) ops).cache.Nodup ∧
    (∀ k, k ∈ (runOps (initialCacheState (γ := γ)) ops).cacheMap.map Prod.fst ↔
      k ∈ (runOps (initialCacheState (γ := γ)) ops).cache) ∧
    (runOps (initialCacheState (γ := γ)) ops).cacheMap.length =
      (runOps (initialCacheState (γ := γ)) ops).cache.length := by
  obtain ⟨hnd, hndk, hmem, _, _⟩ :=
    cacheInv_runOps_of ops initialCacheState cacheInv_initial
  refine ⟨hnd, hmem, ?_⟩
  have := length_eq_of_nodup_of_mem_iff hndk hnd hmem
  rw [← List.length_map _ Prod.fst, this]

/-! ## The entity model: styles, fonts, bitmaps and their registries

`Style` carries the properties the drawing module reads (via
`getStyleProperty`) plus the identity fields `_id`/`_modificationTime` every
`EezObject` has.  Structural equality on these records stands in for JS
reference equality (each object's `_id` is unique, so two distinct objects
never compare equal). -/

structure Glyph where
  encoding : Nat
  dx : ℚ
deriving DecidableEq, Repr

structure Font where
  _id : String
  _modificationTime : Option Nat
  height : ℚ
  glyphs : List Glyph
deriving DecidableEq, Repr

structure ImageElement where
  width : ℚ
  height : ℚ
deriving DecidableEq, Repr

structure BitmapR where
  _id : String
  _modificationTime : Option Nat
  imageElement : Option ImageElement
  backgroundColor : Option String
deriving DecidableEq, Repr

structure Style where
  _id : String
  _modificationTime : Option Nat
  inheritFrom : Option String
  font : Option String
  alignHorizontal : Option String
  alignVertical : Option String
  color : Option String
  backgroundColor : Option String
  borderColor : Option String
  borderSize : Option ℚ
  borderRadius : Option ℚ
  paddingHorizontal : Option ℚ
  paddingVertical : Option ℚ
deriving DecidableEq, Repr

/-- The registries (`findStyle`/`findFont`) and the global default style. -/
structure Env where
  styles : List (String × Style)
  fonts : List (String × Font)
  defaultStyle : Style
deriving DecidableEq, Repr

def findStyle (env : Env) (name : String) : Option Style :=
  mapGet env.styles name

def findFont (env : Env) (name : String) : Option Font :=
  mapGet env.fonts name

/-- `style.inheritFrom && findStyle(style.inheritFrom)`: an unset or empty
(falsy) `inheritFrom` contributes nothing. -/
def inheritTarget (env : Env) (s : Style) : Option Style :=
  match s.inheritFrom with
  | none => none
  | some n => if n = "" then none else findStyle env n

/-- Modelled from the spec: `getStyleProperty` (gui/style.ts, which is not
under src/): "Looks up propertyName on style; if absent, follows
style.inheritFrom (by name lookup in the project's style registry) repeatedly;
if the chain is exhausted, falls back to the global default style. Returns
undefined/absence if even the default lacks it."  The walk is fuel-bounded
because the source does not guard against inheritance cycles (the spec assumes
acyclicity upstream); `sel` selects the property. -/
def getStylePropertyG {α : Type} (env : Env) (sel : Style → Option α) :
    Nat → Style → Option α
  | 0, _ => none
  | n + 1, st =>
    match sel st with
    | some v => some v
    | none =>
      match inheritTarget env st with
      | some parent => getStylePropertyG env sel n parent
      | none => sel env.defaultStyle

/-! The `styleGet*` helpers of `draw.tsx` lines 23–50. -/

def styleGetBorderSize (env : Env) (fuel : Nat) (style : Style) : Option ℚ :=
  getStylePropertyG env (fun s => s.borderSize) fuel style

def styleGetBorderRadius (env : Env) (fuel : Nat) (style : Style) : Option ℚ :=
  getStylePropertyG env (fun s => s.borderRadius) fuel style

def styleIsHorzAlignLeft (env : Env) (fuel : Nat) (style : Style) : Bool :=
  match getStylePropertyG env (fun s => s.alignHorizontal) fuel style with
  | some a => a == "left"
  | none => false

def styleIsHorzAlignRight (env : Env) (fuel : Nat) (style : Style) : Bool :=
  match getStylePropertyG env (fun s => s.alignHorizontal) fuel style with
  | some a => a == "right"
  | none => false

def styleIsVertAlignTop (env : Env) (fuel : Nat) (style : Style) : Bool :=
  match getStylePropertyG env (fun s => s.alignVertical) fuel style with
  | some a => a == "top"
  | none => false

def styleIsVertAlignBottom (env : Env) (fuel : Nat) (style : Style) : Bool :=
  match getStylePropertyG env (fun s => s.alignVertical) fuel style with
  | some a => a == "bottom"
  | none => false

/-- `let font = getStyleProperty(style, "font"); return font && findFont(font)`:
an unset or empty (falsy) font name resolves to no font. -/
def styleGetFont (env : Env) (fuel : Nat) (style : Style) : Option Font :=
  match getStylePropertyG env (fun s => s.font) fuel style with
  | none => none
  | some name => if name = "" then none else findFont env name

/-! ## `getCacheId` (`draw.tsx` lines 102–132) -/

/-- The entities `getCacheId` is applied to in the drawing module. -/
inductive EezEntity where
  | ofStyle (s : Style)
  | ofFont (f : Font)
  | ofBitmap (b : BitmapR)
deriving DecidableEq, Repr

def entityId : EezEntity → String
  | .ofStyle s => s._id
  | .ofFont f => f._id
  | .ofBitmap b => b._id

def entityModificationTime : EezEntity → Option Nat
  | .ofStyle s => s._modificationTime
  | .ofFont f => f._modificationTime
  | .ofBitmap b => b._modificationTime

/-- `getCacheId(obj)`: the base id is `_id + "-" + _modificationTime` (bare
`_id` when the timestamp is undefined); a `Style` additionally appends the
cache id of its resolved font (if any), and then `","` plus the cache id of
the style found under `inheritFrom` — or, when none is found and the style is
not the default style itself, `","` plus the default style's cache id.
Fuel-bounded because the source recursion would diverge on a cyclic
inheritance graph; `style != defaultStyle` (JS reference inequality) is
modelled as structural inequality. -/
def getCacheId (env : Env) : Nat → EezEntity → String
  | 0, _ => ""
  | n + 1, o =>
    let id := match entityModificationTime o with
      | some t => entityId o ++ "-" ++ toString t
      | none => entityId o
    match o with
    | .ofFont _ => id
    | .ofBitmap _ => id
    | .ofStyle style =>
      let id1 := match styleGetFont env (n + 1) style with
        | some font => id ++ getCacheId env n (.ofFont font)
        | none => id
      match inheritTarget env style with
      | some inheritFromStyle => id1 ++ "," ++ getCacheId env n (.ofStyle inheritFromStyle)
      | none =>
        if style = env.defaultStyle then id1
        else id1 ++ "," ++ getCacheId env n (.ofStyle env.defaultStyle)

/-! ### Claim C2 -/

/-- C2: `getCacheId` returns the entity's unique identifier, concatenated with
`"-"` and the modification timestamp when one is present and bare otherwise;
for a `Style` the result is extended with the cache id of the style's resolved
font (when one resolves), and then with either the cache id of the style found
under its `inheritFrom` name or — when no such style is found and the style is
not itself the global default style — the cache id of the global default
style. -/
theorem getCacheId_structure (env : Env) (n : Nat) (o : EezEntity) :
    getCacheId env (n + 1) o =
      (match entityModificationTime o with
        | some t => entityId o ++ "-" ++ toString t
        | none => entityId o) ++
      (match o with
       | .ofFont _ => ""
       | .ofBitmap _ => ""
       | .ofStyle style =>
         (match styleGetFont env (n + 1) style with
          | some font => getCacheId env n (.ofFont font)
          | none => "") ++
         (match inheritTarget env style with
          | some inheritFromStyle =>
            "," ++ getCacheId env n (.ofStyle inheritFromStyle)
          | none =>
            if style = env.defaultStyle then ""
            else "," ++ getCacheId env n (.ofStyle env.defaultStyle))) := by
  match o with
  | .ofFont f => simp [getCacheId]
  | .ofBitmap b => simp [getCacheId]
  | .ofStyle style =>
    show (getCacheId env (n + 1) (.ofStyle style)) = _
    rw [getCacheId]
    cases hmt : entityModificationTime (.ofStyle style) <;>
      cases hf : styleGetFont env (n + 1) style <;>
        cases hi : inheritTarget env style <;>
          simp only [hmt, hf, hi] <;>
            first
              | (split_ifs <;> simp [String.append_assoc])
              | simp [String.append_assoc]

/-! ## JS number helpers -/

/-- `Math.round` (round half toward +∞). -/
def jsRound (q : ℚ) : ℤ := ⌊q + 1/2⌋

/-- Truncation toward zero (the `q` of JS `%`, which is a remainder of
truncated division). -/
def jsTrunc (q : ℚ) : ℤ := if 0 ≤ q then ⌊q⌋ else -⌊-q⌋

/-- `a % b == 0` for JS numbers: false when `b = 0` (the remainder is `NaN`),
else whether `b` divides `a` exactly. -/
def jsModZero (a b : ℚ) : Bool :=
  if b = 0 then false else decide (a - b * (jsTrunc (a / b) : ℚ) = 0)

/-- `x || dflt` for an optional string (`undefined` and `""` are falsy). -/
def jsStrOr (a : Option String) (b : String) : String :=
  match a with
  | none => b
  | some s => if s = "" then b else s

/-! ## JSON string unescaping

Modelled from the spec: the renderers call `JSON.parse('"' + text + '"')` to
interpret backslash escape sequences; `JSON.parse` itself is a platform
builtin.  The model accepts the JSON escapes `\" \\ \/ \b \f \n \r \t \uXXXX`
and fails (as `JSON.parse` throws) on a trailing or unknown escape and on an
unescaped `"` (which would end the JSON string early and leave garbage).
Unescaped control characters are accepted here (a minor liberalisation). -/

def hexVal (c : Char) : Option Nat :=
  if '0' ≤ c ∧ c ≤ '9' then some (c.toNat - '0'.toNat)
  else if 'a' ≤ c ∧ c ≤ 'f' then some (c.toNat - 'a'.toNat + 10)
  else if 'A' ≤ c ∧ c ≤ 'F' then some (c.toNat - 'A'.toNat + 10)
  else none

def unescapeChars : List Char → Option (List Char)
  | [] => some []
  | '\\' :: rest =>
    match rest with
    | [] => none
    | 'n' :: rest' => (unescapeChars rest').map (fun l => '\n' :: l)
    | 't' :: rest' => (unescapeChars rest').map (fun l => '\t' :: l)
    | 'r' :: rest' => (unescapeChars rest').map (fun l => '\r' :: l)
    | 'b' :: rest' => (unescapeChars rest').map (fun l => (Char.ofNat 8) :: l)
    | 'f' :: rest' => (unescapeChars rest').map (fun l => (Char.ofNat 12) :: l)
    | '"' :: rest' => (unescapeChars rest').map (fun l => '"' :: l)
    | '\\' :: rest' => (unescapeChars rest').map (fun l => '\\' :: l)
    | '/' :: rest' => (unescapeChars rest').map (fun l => '/' :: l)
    | 'u' :: h1 :: h2 :: h3 :: h4 :: rest' =>
      match hexVal h1, hexVal h2, hexVal h3, hexVal h4 with
      | some a, some b, some c, some d =>
        (unescapeChars rest').map
          (fun l => Char.ofNat (4096 * a + 256 * b + 16 * c + d) :: l)
      | _, _, _, _ => none
    | _ => none
  | '"' :: _ => none
  | c :: rest => (unescapeChars rest).map (fun l => c :: l)

def jsonUnescape (s : String) : Option String :=
  (unescapeChars s.data).map (fun l => String.mk l)

/-! ## The lcd paint-operation trace

The renderers' callbacks paint through the `lcd` module (not under src/).
Each call is recorded as one operation carrying the arguments in the source's
order; `drawTextImage` records `ctx.drawImage(drawText(...), x, y)` by the
parameters of the blitted `drawText` canvas. -/

inductive LcdOp where
  | setColor (c : Option String)
  | setBackColor (c : Option String)
  | fillRect (x1 y1 x2 y2 r : ℚ)
  | drawHLine (x y l : ℚ)
  | drawVLine (x y l : ℚ)
  | drawStr (s : String) (x y : ℚ) (fontId : String)
  | drawBitmapImg (x y w h : ℚ)
  | drawTextImage (s : String) (w h : ℚ) (style : Style) (inverse : Bool)
      (overrideBackgroundColor : Option String) (x y : ℚ)
deriving DecidableEq, Repr

/-- Modelled from the spec: `lcd.measureStr(text, font, maxWidth)` (lcd.ts is
not under src/) sums the per-glyph advance widths (`dx`), a missing glyph
contributing 0; a positive `maxWidth` stops before the run would exceed it. -/
def measureGo (font : Font) (maxWidth : ℚ) : List Char → ℚ → ℚ
  | [], acc => acc
  | c :: rest, acc =>
    let dx := match font.glyphs.find? (fun g => g.encoding == c.toNat) with
      | some g => g.dx
      | none => 0
    if maxWidth > 0 ∧ acc + dx > maxWidth then acc
    else measureGo font maxWidth rest (acc + dx)

def measureStr (s : String) (font : Font) (maxWidth : ℚ) : ℚ :=
  measureGo font maxWidth s.data 0

/-! ## The shared border/inset block

Every renderer starts with
`x1 = 0; y1 = 0; x2 = w-1; y2 = h-1`, and when the resolved border size is
positive paints the border color into the full rounded rectangle, insets all
four edges by the border size and floors the reduced radius at 0
(`draw.tsx` lines 150–165, 234–249, 357–372, 433–448, 949–964, 1039–1054). -/

structure InsetResult where
  ops : List LcdOp
  x1 : ℚ
  y1 : ℚ
  x2 : ℚ
  y2 : ℚ
  borderRadius : ℚ
deriving DecidableEq, Repr

def borderBlock (env : Env) (fuel : Nat) (style : Style) (w h : ℚ) :
    InsetResult :=
  let x1 : ℚ := 0
  let y1 : ℚ := 0
  let x2 : ℚ := w - 1
  let y2 : ℚ := h - 1
  let borderSize := (styleGetBorderSize env fuel style).getD 0
  let borderRadius := (styleGetBorderRadius env fuel style).getD 0
  if 0 < borderSize then
    { ops := [LcdOp.setColor (getStylePropertyG env (fun s => s.borderColor) fuel style),
        LcdOp.fillRect x1 y1 x2 y2 borderRadius]
      x1 := x1 + borderSize
      y1 := y1 + borderSize
      x2 := x2 - borderSize
      y2 := y2 - borderSize
      borderRadius := max (borderRadius - borderSize) 0 }
  else
    { ops := [], x1 := x1, y1 := y1, x2 := x2, y2 := y2,
      borderRadius := borderRadius }

/-! ## `drawText` (`draw.tsx` lines 136–219)

The trace of the render callback (the caching wrapper is the state machine
above; a fresh render of `drawText` issues exactly these operations). -/

/-- The operations after the background fill: nothing when no font resolves
(the source returns early), else the single-line layout and the string paint.
`textU` is the (already unescaped, or raw on an unescape failure) text. -/
def drawTextContentOps (env : Env) (fuel : Nat) (textU : String) (style : Style)
    (inverse : Bool) (styleColor styleBackgroundColor : Option String)
    (x1 y1 x2 y2 : ℚ) : List LcdOp :=
  match styleGetFont env fuel style with
  | none => []
  | some font =>
    let width := measureStr textU font (x2 - x1 + 1)
    let height := font.height
    let x_offset : ℚ :=
      if styleIsHorzAlignLeft env fuel style then
        x1 + (getStylePropertyG env (fun s => s.paddingHorizontal) fuel style).getD 0
      else if styleIsHorzAlignRight env fuel style then
        x2 - (getStylePropertyG env (fun s => s.paddingHorizontal) fuel style).getD 0
          - width
      else ((⌊x1 + (x2 - x1 + 1 - width) / 2⌋ : ℤ) : ℚ)
    let y_offset : ℚ :=
      if styleIsVertAlignTop env fuel style then
        y1 + (getStylePropertyG env (fun s => s.paddingVertical) fuel style).getD 0
      else if styleIsVertAlignBottom env fuel style then
        y2 - (getStylePropertyG env (fun s => s.paddingVertical) fuel style).getD 0
          - height
      else ((⌊y1 + (y2 - y1 + 1 - height) / 2⌋ : ℤ) : ℚ)
    (if inverse then
      [LcdOp.setBackColor styleColor, LcdOp.setColor styleBackgroundColor]
    else
      [LcdOp.setBackColor styleBackgroundColor, LcdOp.setColor styleColor]) ++
    [LcdOp.drawStr textU x_offset y_offset font._id]

def drawTextRender (env : Env) (fuel : Nat) (text : String) (w h : ℚ)
    (style : Style) (inverse : Bool) (overrideBackgroundColor : Option String) :
    List LcdOp :=
  let b := borderBlock env fuel style w h
  let styleColor := getStylePropertyG env (fun s => s.color) fuel style
  let styleBackgroundColor :=
    match overrideBackgroundColor with
    | some c => some c
    | none => getStylePropertyG env (fun s => s.backgroundColor) fuel style
  let backgroundColor := if inverse then styleColor else styleBackgroundColor
  let textU := match jsonUnescape text with | some t => t | none => text
  b.ops ++
    [LcdOp.setColor backgroundColor,
      LcdOp.fillRect b.x1 b.y1 b.x2 b.y2 b.borderRadius] ++
    drawTextContentOps env fuel textU style inverse styleColor
      styleBackgroundColor b.x1 b.y1 b.x2 b.y2

/-! ## `drawMultilineText` (`draw.tsx` lines 221–341) -/

/-- The word scanner: length of the prefix of word characters (up to a space,
a newline or the end). -/
def wordLen : List Char → Nat
  | [] => 0
  | c :: rest => if c = ' ' ∨ c = '\n' then 0 else wordLen rest + 1

/-- Length of the prefix of spaces. -/
def spacesLen : List Char → Nat
  | [] => 0
  | c :: rest => if c = ' ' then spacesLen rest + 1 else 0

/-- The inner wrap loop (`while (width > x2 - x + 1) …`) followed by the
`if (y + height > y2) break` check: `none` means the outer loop breaks (the
vertical space is exhausted), `some (x, y)` the position the word is drawn at.
Fuel-bounded: with `height ≤ 0` the source loop would not terminate. -/
def mlWrapPos (x1 x2 y2 height width : ℚ) : Nat → ℚ → ℚ → Option (ℚ × ℚ)
  | 0, _, _ => none
  | fuel + 1, x, y =>
    if width > x2 - x + 1 then
      let y' := y + height
      if y' + height > y2 then none
      else mlWrapPos x1 x2 y2 height width fuel x1 y'
    else if y + height > y2 then none
    else some (x, y)

structure MLParams where
  env : Env
  fuel : Nat
  style : Style
  inverse : Bool
  text : List Char
  font : Font
  x1 : ℚ
  x2 : ℚ
  y2 : ℚ
  height : ℚ
  spaceWidth : ℚ
deriving DecidableEq, Repr

/-- The outer `while (true)` loop of `drawMultilineText` (lines 281–338):
scan a word, wrap it, paint it, skip spaces, and handle end-of-text and
explicit newlines (which add `floor(0.2 * height)` extra paragraph spacing).
Fuel-bounded; each iteration of the source loop advances the scan position,
so `text.length + 1` fuel is exact. -/
def mlOuter (P : MLParams) : Nat → Nat → ℚ → ℚ → List LcdOp
  | 0, _, _, _ => []
  | fuel + 1, i, x, y =>
    let wl := wordLen (P.text.drop i)
    let word := String.mk ((P.text.drop i).take wl)
    let width := measureStr word P.font 0
    match mlWrapPos P.x1 P.x2 P.y2 P.height width (fuel + 1) x y with
    | none => []
    | some (x', y') =>
      let drawOps :=
        (if P.inverse then
          [LcdOp.setBackColor (getStylePropertyG P.env (fun s => s.color) P.fuel P.style),
           LcdOp.setColor (getStylePropertyG P.env (fun s => s.backgroundColor) P.fuel P.style)]
        else
          [LcdOp.setBackColor (getStylePropertyG P.env (fun s => s.backgroundColor) P.fuel P.style),
           LcdOp.setColor (getStylePropertyG P.env (fun s => s.color) P.fuel P.style)]) ++
        [LcdOp.drawStr word x' y' P.font._id]
      let i1 := i + wl
      let nsp := spacesLen (P.text.drop i1)
      let i2 := i1 + nsp
      let xNext := x' + width + (nsp : ℚ) * P.spaceWidth
      if i2 = P.text.length then drawOps
      else if (P.text.drop i2).head? = some '\n' then
        let yLine := y' + P.height
        let extra := ((⌊(2 : ℚ) / 10 * P.height⌋ : ℤ) : ℚ)
        let yPara := yLine + extra
        if yPara + P.height > P.y2 then drawOps
        else drawOps ++ mlOuter P fuel (i2 + 1) P.x1 yPara
      else drawOps ++ mlOuter P fuel i2 xNext y'

/-- The operations after the background fill of `drawMultilineText`: nothing
when no font resolves, else the padded inset and the word-wrap loop. -/
def drawMultilineContentOps (env : Env) (fuel : Nat) (textU : String)
    (style : Style) (inverse : Bool) (b : InsetResult) : List LcdOp :=
  match styleGetFont env fuel style with
  | none => []
  | some font =>
    let height := ((⌊(9 : ℚ) / 10 * font.height⌋ : ℤ) : ℚ)
    let ph := (getStylePropertyG env (fun s => s.paddingHorizontal) fuel style).getD 0
    let pv := (getStylePropertyG env (fun s => s.paddingVertical) fuel style).getD 0
    let spaceWidth := match font.glyphs.find? (fun g => g.encoding == 32) with
      | some g => g.dx
      | none => 0
    mlOuter
      { env := env, fuel := fuel, style := style, inverse := inverse,
        text := textU.data, font := font, x1 := b.x1 + ph, x2 := b.x2 - ph,
        y2 := b.y2 - pv, height := height, spaceWidth := spaceWidth }
      (textU.data.length + 1) 0 (b.x1 + ph) (b.y1 + pv)

def drawMultilineTextRender (env : Env) (fuel : Nat) (text : String) (w h : ℚ)
    (style : Style) (inverse : Bool) : List LcdOp :=
  let b := borderBlock env fuel style w h
  let backgroundColor :=
    if inverse then getStylePropertyG env (fun s => s.color) fuel style
    else getStylePropertyG env (fun s => s.backgroundColor) fuel style
  let textU := match jsonUnescape text with | some t => t | none => text
  b.ops ++
    [LcdOp.setColor backgroundColor,
      LcdOp.fillRect b.x1 b.y1 b.x2 b.y2 b.borderRadius] ++
    drawMultilineContentOps env fuel textU style inverse b

/-! ## `drawBitmap` (`draw.tsx` lines 345–421) -/

/-- `drawBitmap` returns `undefined` (here `none`) when the bitmap has no
decoded image.  Otherwise its callback: border block, background fill,
alignment offsets for the image, a second plain background fill of the inset
(lines 401–405), the back/fore color pair, the bitmap's own background behind
the image, then the blit. -/
def drawBitmapRender (env : Env) (fuel : Nat) (bitmap : BitmapR) (w h : ℚ)
    (style : Style) (inverse : Bool) : Option (List LcdOp) :=
  match bitmap.imageElement with
  | none => none
  | some imageElement =>
    let b := borderBlock env fuel style w h
    let backgroundColor :=
      if inverse then getStylePropertyG env (fun s => s.color) fuel style
      else getStylePropertyG env (fun s => s.backgroundColor) fuel style
    let width := imageElement.width
    let height := imageElement.height
    let x_offset : ℚ :=
      if styleIsHorzAlignLeft env fuel style then
        b.x1 + (getStylePropertyG env (fun s => s.paddingHorizontal) fuel style).getD 0
      else if styleIsHorzAlignRight env fuel style then
        b.x2 - (getStylePropertyG env (fun s => s.paddingHorizontal) fuel style).getD 0
          - width
      else ((⌊b.x1 + (b.x2 - b.x1 - width) / 2⌋ : ℤ) : ℚ)
    let y_offset : ℚ :=
      if styleIsVertAlignTop env fuel style then
        b.y1 + (getStylePropertyG env (fun s => s.paddingVertical) fuel style).getD 0
      else if styleIsVertAlignBottom env fuel style then
        b.y2 - (getStylePropertyG env (fun s => s.paddingVertical) fuel style).getD 0
          - height
      else ((⌊b.y1 + (b.y2 - b.y1 - height) / 2⌋ : ℤ) : ℚ)
    some (b.ops ++
      [LcdOp.setColor backgroundColor,
        LcdOp.fillRect b.x1 b.y1 b.x2 b.y2 b.borderRadius] ++
      [LcdOp.setColor backgroundColor,
        LcdOp.fillRect b.x1 b.y1 b.x2 b.y2 0] ++
      (if inverse then
        [LcdOp.setBackColor (getStylePropertyG env (fun s => s.color) fuel style),
         LcdOp.setColor (getStylePropertyG env (fun s => s.backgroundColor) fuel style)]
      else
        [LcdOp.setBackColor (getStylePropertyG env (fun s => s.backgroundColor) fuel style),
         LcdOp.setColor (getStylePropertyG env (fun s => s.color) fuel style)]) ++
      [LcdOp.setColor (some (jsStrOr bitmap.backgroundColor "transparent")),
        LcdOp.fillRect x_offset y_offset (x_offset + width - 1)
          (y_offset + height - 1) 0,
        LcdOp.drawBitmapImg x_offset y_offset width height])

/-! ## `drawRectangle` (`draw.tsx` lines 425–460) -/

/-- The callback of `drawRectangle`: the border block, then a fill of the
inset rectangle with the foreground color (`"color"`) — the background color
when `inverse` is set. -/
def drawRectangleRender (env : Env) (fuel : Nat) (w h : ℚ) (style : Style)
    (inverse : Bool) : List LcdOp :=
  let b := borderBlock env fuel style w h
  b.ops ++
    [LcdOp.setColor
      (if inverse then getStylePropertyG env (fun s => s.backgroundColor) fuel style
       else getStylePropertyG env (fun s => s.color) fuel style),
      LcdOp.fillRect b.x1 b.y1 b.x2 b.y2 b.borderRadius]

/-- `drawRectangle` is a no-op (returns `undefined`) unless both dimensions
are positive. -/
def drawRectangle (env : Env) (fuel : Nat) (w h : ℚ) (style : Style)
    (inverse : Bool) : Option (List LcdOp) :=
  if 0 < w ∧ 0 < h then some (drawRectangleRender env fuel w h style inverse)
  else none

/-! ## Fixtures for witnesses and counterexamples -/

def defaultStyleFixture : Style :=
  ⟨"default", none, none, none, none, none, some "black", some "silver",
    some "gray", some 0, some 0, some 0, some 0⟩

def plainStyle : Style :=
  ⟨"plain", some 7, none, none, none, none, some "red", some "white",
    some "blue", some 0, some 0, some 0, some 0⟩

def borderedStyle : Style :=
  ⟨"bordered", some 8, none, none, none, none, some "red", some "white",
    some "blue", some 2, some 3, some 0, some 0⟩

def envFixture : Env := ⟨[], [], defaultStyleFixture⟩

def bitmapFixture : BitmapR := ⟨"bmp", none, some ⟨20, 20⟩, none⟩

/-! ### Claim C4 -/

/-- Does an operation paint only inside `[b, w-b) × [b, h-b)` (coordinates of
filled rectangles and blits are inclusive)?  Operations that paint nothing
count as inside. -/
def opInsideInset (b w h : ℚ) : LcdOp → Bool
  | LcdOp.fillRect x1 y1 x2 y2 _ =>
    decide (b ≤ x1 ∧ b ≤ y1 ∧ x2 ≤ w - b - 1 ∧ y2 ≤ h - b - 1)
  | LcdOp.drawBitmapImg x y bw bh =>
    decide (b ≤ x ∧ b ≤ y ∧ x + bw - 1 ≤ w - b - 1 ∧ y + bh - 1 ≤ h - b - 1)
  | LcdOp.drawHLine x y l =>
    decide (b ≤ x ∧ b ≤ y ∧ x + l ≤ w - b - 1 ∧ y ≤ h - b - 1)
  | LcdOp.drawVLine x y l =>
    decide (b ≤ x ∧ b ≤ y ∧ x ≤ w - b - 1 ∧ y + l ≤ h - b - 1)
  | _ => true

/-- C4 counterexample: with border size 2 on a 10×10 bitmap render of a 20×20
image, the content step paints the image background rectangle at
`(-6, -6)–(13, 13)`, far outside the inset `[2, 8) × [2, 8)`: content painting
is not clipped to the inset rectangle, so the claimed containment fails. -/
theorem drawBitmap_content_escapes_inset :
    List.all
      (List.drop 4
        ((drawBitmapRender envFixture 1 bitmapFixture 10 10 borderedStyle
          false).getD []))
      (opInsideInset 2 10 10) = false := by
  norm_num [drawBitmapRender, borderBlock, styleGetBorderSize,
    styleGetBorderRadius, getStylePropertyG, inheritTarget,
    styleIsHorzAlignLeft, styleIsHorzAlignRight, styleIsVertAlignTop,
    styleIsVertAlignBottom, envFixture, borderedStyle, bitmapFixture,
    defaultStyleFixture, jsStrOr, opInsideInset]

/-- C4 (amended): for `drawText`, `drawMultilineText` and `drawBitmap` with
resolved border size `B > 0` and radius `R`, the border color is painted on
the full rounded rectangle first, then the inset's four edges sit at distance
`B` from the bitmap edges and the background fill covers exactly
`[B, W-B) × [B, H-B)` with effective inner radius `max (R - B) 0`.  (Content
painted afterwards is not clipped to the inset rectangle and can exceed it
when the content with its padding does not fit — see the counterexample.) -/
def C4Conclusion (env : Env) (fuel : Nat) (style : Style) (w h : ℚ)
    (text : String) (inverse : Bool) (obg : Option String) (bitmap : BitmapR)
    (B R : ℚ) : Prop :=
  let borderOps :=
    [LcdOp.setColor (getStylePropertyG env (fun s => s.borderColor) fuel style),
     LcdOp.fillRect 0 0 (w - 1) (h - 1) R]
  let insetFill := fun (c : Option String) =>
    [LcdOp.setColor c,
     LcdOp.fillRect B B (w - 1 - B) (h - 1 - B) (max (R - B) 0)]
  let sc := getStylePropertyG env (fun s => s.color) fuel style
  let sbg := getStylePropertyG env (fun s => s.backgroundColor) fuel style
  let sbgT := match obg with
    | some c => some c
    | none => getStylePropertyG env (fun s => s.backgroundColor) fuel style
  ((drawTextRender env fuel text w h style inverse obg).take 4 =
      borderOps ++ insetFill (if inverse then sc else sbgT)) ∧
  ((drawMultilineTextRender env fuel text w h style inverse).take 4 =
      borderOps ++ insetFill (if inverse then sc else sbg)) ∧
  ((drawBitmapRender env fuel bitmap w h style inverse).map
        (fun l => l.take 4) =
      bitmap.imageElement.map
        (fun _ => borderOps ++ insetFill (if inverse then sc else sbg)))

/-- C4 (amended), proved. -/
theorem border_inset_geometry (env : Env) (fuel : Nat) (style : Style)
    (w h : ℚ) (text : String) (inverse : Bool) (obg : Option String)
    (bitmap : BitmapR) (B R : ℚ)
    (hB : (styleGetBorderSize env fuel style).getD 0 = B)
    (hR : (styleGetBorderRadius env fuel style).getD 0 = R)
    (hpos : 0 < B) : C4Conclusion env fuel style w h text inverse obg bitmap B R := by
  have hblock : borderBlock env fuel style w h =
      { ops := [LcdOp.setColor (getStylePropertyG env (fun s => s.borderColor) fuel style),
          LcdOp.fillRect 0 0 (w - 1) (h - 1) R]
        x1 := 0 + B, y1 := 0 + B, x2 := w - 1 - B, y2 := h - 1 - B
        borderRadius := max (R - B) 0 } := by
    rw [borderBlock, hB, hR]
    simp [hpos]
  refine ⟨?_, ?_, ?_⟩
  · simp only [drawTextRender, hblock]
    cases inverse <;> cases obg <;> simp [List.take]
  · simp only [drawMultilineTextRender, hblock]
    cases inverse <;> simp [List.take]
  · cases hbm : bitmap.imageElement with
    | none => simp [drawBitmapRender, hbm]
    | some img =>
      simp only [drawBitmapRender, hbm, hblock, Option.map_some']
      cases inverse <;> simp [List.take]

/-- Witness for C4 at a concrete input. -/
theorem border_inset_geometry_witness :
    ((styleGetBorderSize envFixture 1 borderedStyle).getD 0 = 2 ∧
      (styleGetBorderRadius envFixture 1 borderedStyle).getD 0 = 3 ∧
      (0 : ℚ) < 2) ∧
    C4Conclusion envFixture 1 borderedStyle 10 10 "x" false none bitmapFixture
      2 3 :=
  ⟨⟨by decide, by decide, by norm_num⟩,
    border_inset_geometry envFixture 1 borderedStyle 10 10 "x" false none
      bitmapFixture 2 3 (by decide) (by decide) (by norm_num)⟩

/-! ### Claim C5 -/

/-- C5 counterexample: `drawRectangle` with `inverse = false` fills the inset
rectangle with the style's foreground color (`"red"`), not its background
color (`"white"`): inversion's roles are reversed for the rectangle
renderer. -/
theorem drawRectangle_fill_uses_foreground :
    drawRectangleRender envFixture 1 10 6 plainStyle false =
      [LcdOp.setColor (some "red"), LcdOp.fillRect 0 0 9 5 0] ∧
    (some "red" : Option String) ≠ some "white" ∧
    getStylePropertyG envFixture (fun s => s.color) 1 plainStyle = some "red" ∧
    getStylePropertyG envFixture (fun s => s.backgroundColor) 1 plainStyle =
      some "white" := by
  refine ⟨?_, by decide, by decide, by decide⟩
  norm_num [drawRectangleRender, borderBlock, styleGetBorderSize,
    styleGetBorderRadius, getStylePropertyG, envFixture, plainStyle]

/-- The two operations right after the border block of a renderer trace. -/
theorem drop_ops_take_two (l rest : List LcdOp) (a₁ a₂ : LcdOp) :
    ((l ++ (a₁ :: a₂ :: rest)).drop l.length).take 2 = [a₁, a₂] := by
  rw [List.drop_left]
  rfl

/-- C5 (amended): after the border step, `drawText`, `drawMultilineText` and
`drawBitmap` fill the inset rectangle with the style's background color when
`inverse` is false and with its foreground color (`"color"`) when `inverse` is
true; `drawRectangle` — the degenerate case with no content step — has the two
roles reversed: it fills with the foreground color when `inverse` is false and
with the background color when `inverse` is true. -/
theorem inverse_fill_semantics (env : Env) (fuel : Nat) (style : Style)
    (w h : ℚ) (text : String) (inverse : Bool) (bitmap : BitmapR) :
    (((drawTextRender env fuel text w h style inverse none).drop
          (borderBlock env fuel style w h).ops.length).take 2 =
        [LcdOp.setColor
          (if inverse then getStylePropertyG env (fun s => s.color) fuel style
           else getStylePropertyG env (fun s => s.backgroundColor) fuel style),
         LcdOp.fillRect (borderBlock env fuel style w h).x1
           (borderBlock env fuel style w h).y1
           (borderBlock env fuel style w h).x2
           (borderBlock env fuel style w h).y2
           (borderBlock env fuel style w h).borderRadius]) ∧
    (((drawMultilineTextRender env fuel text w h style inverse).drop
          (borderBlock env fuel style w h).ops.length).take 2 =
        [LcdOp.setColor
          (if inverse then getStylePropertyG env (fun s => s.color) fuel style
           else getStylePropertyG env (fun s => s.backgroundColor) fuel style),
         LcdOp.fillRect (borderBlock env fuel style w h).x1
           (borderBlock env fuel style w h).y1
           (borderBlock env fuel style w h).x2
           (borderBlock env fuel style w h).y2
           (borderBlock env fuel style w h).borderRadius]) ∧
    ((drawBitmapRender env fuel bitmap w h style inverse).map
          (fun l => (l.drop (borderBlock env fuel style w h).ops.length).take 2) =
        bitmap.imageElement.map
          (fun _ =>
            [LcdOp.setColor
              (if inverse then getStylePropertyG env (fun s => s.color) fuel style
               else getStylePropertyG env (fun s => s.backgroundColor) fuel style),
             LcdOp.fillRect (borderBlock env fuel style w h).x1
               (borderBlock env fuel style w h).y1
               (borderBlock env fuel style w h).x2
               (borderBlock env fuel style w h).y2
               (borderBlock env fuel style w h).borderRadius])) ∧
    (((drawRectangleRender env fuel w h style inverse).drop
          (borderBlock env fuel style w h).ops.length).take 2 =
        [LcdOp.setColor
          (if inverse then
            getStylePropertyG env (fun s => s.backgroundColor) fuel style
           else getStylePropertyG env (fun s => s.color) fuel style),
         LcdOp.fillRect (borderBlock env fuel style w h).x1
           (borderBlock env fuel style w h).y1
           (borderBlock env fuel style w h).x2
           (borderBlock env fuel style w h).y2
           (borderBlock env fuel style w h).borderRadius]) := by
  refine ⟨?_, ?_, ?_, ?_⟩
  · simp only [drawTextRender, List.append_assoc, List.cons_append,
      List.nil_append]
    exact drop_ops_take_two _ _ _ _
  · simp only [drawMultilineTextRender, List.append_assoc, List.cons_append,
      List.nil_append]
    exact drop_ops_take_two _ _ _ _
  · cases hbm : bitmap.imageElement with
    | none => simp [drawBitmapRender, hbm]
    | some img =>
      simp only [drawBitmapRender, hbm, Option.map_some', List.append_assoc,
        List.cons_append, List.nil_append]
      rw [drop_ops_take_two]
  · simp only [drawRectangleRender, List.append_assoc, List.cons_append,
      List.nil_append]
    exact drop_ops_take_two _ _ _ _

/-! ### Claim C8 -/

/-- The conclusion of claim C8: when the JSON unescaping of `text` fails, both
text renderers proceed with the original raw `text` (the content operations
receive `text` verbatim); being total functions of their inputs, they return a
trace — the failure is absorbed, never propagated. -/
def C8Conclusion (env : Env) (fuel : Nat) (text : String) (w h : ℚ)
    (style : Style) (inverse : Bool) (obg : Option String) : Prop :=
  (drawTextRender env fuel text w h style inverse obg =
    (borderBlock env fuel style w h).ops ++
      [LcdOp.setColor
        (if inverse then getStylePropertyG env (fun s => s.color) fuel style
         else
          match obg with
          | some c => some c
          | none => getStylePropertyG env (fun s => s.backgroundColor) fuel style),
       LcdOp.fillRect (borderBlock env fuel style w h).x1
         (borderBlock env fuel style w h).y1
         (borderBlock env fuel style w h).x2
         (borderBlock env fuel style w h).y2
         (borderBlock env fuel style w h).borderRadius] ++
      drawTextContentOps env fuel text style inverse
        (getStylePropertyG env (fun s => s.color) fuel style)
        (match obg with
          | some c => some c
          | none => getStylePropertyG env (fun s => s.backgroundColor) fuel style)
        (borderBlock env fuel style w h).x1
        (borderBlock env fuel style w h).y1
        (borderBlock env fuel style w h).x2
        (borderBlock env fuel style w h).y2) ∧
  (drawMultilineTextRender env fuel text w h style inverse =
    (borderBlock env fuel style w h).ops ++
      [LcdOp.setColor
        (if inverse then getStylePropertyG env (fun s => s.color) fuel style
         else getStylePropertyG env (fun s => s.backgroundColor) fuel style),
       LcdOp.fillRect (borderBlock env fuel style w h).x1
         (borderBlock env fuel style w h).y1
         (borderBlock env fuel style w h).x2
         (borderBlock env fuel style w h).y2
         (borderBlock env fuel style w h).borderRadius] ++
      drawMultilineContentOps env fuel text style inverse
        (borderBlock env fuel style w h))

/-- C8: a failed JSON unescape is caught locally and the renderers fall back
to the original raw text; no exception escapes (the render functions are total
and produce the same trace shape with the raw text in place of the unescaped
one). -/
theorem unescape_failure_renders_raw (env : Env) (fuel : Nat) (text : String)
    (w h : ℚ) (style : Style) (inverse : Bool) (obg : Option String)
    (hfail : jsonUnescape text = none) :
    C8Conclusion env fuel text w h style inverse obg := by
  constructor
  · simp only [drawTextRender, hfail]
  · simp only [drawMultilineTextRender, hfail]

/-- Witness for C8: `"\q"` is not a valid JSON escape, so unescaping fails
and the raw text is rendered. -/
theorem unescape_failure_renders_raw_witness :
    jsonUnescape "\\q" = none ∧
    C8Conclusion envFixture 1 "\\q" 20 10 plainStyle false none :=
  ⟨by decide,
    unescape_failure_renders_raw envFixture 1 "\\q" 20 10 plainStyle false none
      (by decide)⟩

/-! ## `ScpiEnumMember.check` (enum.ts lines 52–81)

The source scans the parent array once, remembering `thisIndex` (where
`arr[i] === this`) and `otherIndex` (the LAST index `i` with `arr[i] !== this`
and the same name), and reports "is not unique" only when
`otherIndex !== -1 && thisIndex > otherIndex`.  JS reference (in)equality of
the array's member objects is modelled by index equality (the array holds
distinct child objects); `this` is the member at `idx`. -/

structure ScpiEnumMember where
  name : Option String
  value : Option String
deriving DecidableEq, Repr

/-- The messages `check` can produce (`output.Message` texts abstracted to
their kind and the member name they mention). -/
inductive CheckMsg where
  | notUnique (memberName : String)
  | propertyNotSet (propertyName : String)
deriving DecidableEq, Repr

/-- JS truthiness of `this.name` (`if (this.name)`). -/
def truthyName : Option String → Bool
  | none => false
  | some s => s != ""

def thisIndexOf (arr : List ScpiEnumMember) (idx : Nat) : Int :=
  (List.range arr.length).foldl
    (fun acc i => if i = idx then (i : Int) else acc) (-1)

def lastOtherIndex (arr : List ScpiEnumMember) (idx : Nat) (nm : Option String) :
    Int :=
  (List.range arr.length).foldl
    (fun acc i =>
      if i ≠ idx ∧ (arr.getD i ⟨none, none⟩).name = nm then (i : Int) else acc)
    (-1)

def scpiEnumMemberCheck (arr : List ScpiEnumMember) (idx : Nat) :
    List CheckMsg :=
  let this := arr.getD idx ⟨none, none⟩
  if truthyName this.name then
    if lastOtherIndex arr idx this.name ≠ -1 ∧
        thisIndexOf arr idx > lastOtherIndex arr idx this.name then
      [CheckMsg.notUnique (this.name.getD "")]
    else []
  else [CheckMsg.propertyNotSet "name"]

/-- A fold that marks the last index satisfying `P` (and `-1` when none
does). -/
theorem foldl_mark_last (P : Nat → Prop) [DecidablePred P] (n : Nat) :
    (((List.range n).foldl (fun acc i => if P i then (i : Int) else acc) (-1) =
        -1) ∧ ∀ j, j < n → ¬ P j) ∨
    (∃ j : Nat, ((List.range n).foldl (fun acc i => if P i then (i : Int) else acc)
        (-1) = (j : Int)) ∧ j < n ∧ P j) := by
  induction n with
  | zero =>
    left
    exact ⟨rfl, fun j hj => absurd hj (by omega)⟩
  | succ n ih =>
    rw [List.range_succ, List.foldl_append]
    simp only [List.foldl_cons, List.foldl_nil]
    by_cases hp : P n
    · right
      exact ⟨n, by simp [hp], by omega, hp⟩
    · rcases ih with ⟨heq, hall⟩ | ⟨j, hj, hlt, hpj⟩
      · left
        refine ⟨by simp [hp, heq], fun j hj => ?_⟩
        rcases Nat.lt_succ_iff_lt_or_eq.mp hj with h | h
        · exact hall j h
        · exact h ▸ hp
      · right
        exact ⟨j, by simp [hp, hj], by omega, hpj⟩

theorem thisIndexOf_lt (arr : List ScpiEnumMember) (idx : Nat)
    (h : idx < arr.length) : thisIndexOf arr idx = idx := by
  rcases foldl_mark_last (fun i => i = idx) arr.length with ⟨_, hall⟩ |
    ⟨j, hj, _, hpj⟩
  · exact absurd rfl (hall idx h)
  · rw [thisIndexOf, hj, hpj]

theorem thisIndexOf_ge (arr : List ScpiEnumMember) (idx : Nat)
    (h : arr.length ≤ idx) : thisIndexOf arr idx = -1 := by
  rcases foldl_mark_last (fun i => i = idx) arr.length with ⟨heq, _⟩ |
    ⟨j, hj, hlt, hpj⟩
  · exact heq
  · omega

/-! ## The scale widget (`draw.tsx` lines 601–815)

`drawScaleWidget` caches nothing (null key); the trace is the callback's
operation list.  All arithmetic is exact-rational; where the source's float
arithmetic could stray (`10 * (f / 10)`, `%` on non-representable fractions)
the model computes the exact value — none of the claims turn on those
digits. `d` in the source thumb block (`let d = Math.abs(...)`) shadows the
outer parameter `d` and is named `dd` here. -/

structure RectQ where
  width : ℚ
  height : ℚ
deriving DecidableEq, Repr

/-- The live data bindings (`data.get`, `data.getMin`, `data.getMax`). -/
structure DataEnv where
  vals : List (String × String)
  mins : List (String × ℚ)
  maxs : List (String × ℚ)
deriving DecidableEq, Repr

structure ScaleWidget where
  data : Option String
  needlePosition : String
  needleWidth : ℚ
  needleHeight : ℚ
  style : Style
deriving DecidableEq, Repr

structure BarGraphWidget where
  data : Option String
  orientation : String
  style : Style
  textStyle : Style
  line1Data : Option String
  line2Data : Option String
  line1Style : Style
  line2Style : Style
deriving DecidableEq, Repr

/-- `[a, a+1, …, b]` (empty when `b < a`): the `for (let y_i = y_from;
y_i <= y_to; y_i++)` loop's index list. -/
def intRangeIncl (a b : ℤ) : List ℤ :=
  (List.range (b + 1 - a).toNat).map (fun n => a + (n : ℤ))

/-- The geometry `drawScale` derives from the widget before its loop
(lines 613–657). -/
structure ScaleParams where
  vertical : Bool
  flip : Bool
  needleSize : ℚ
  x1 : ℚ
  l1 : ℚ
  x2 : ℚ
  l2 : ℚ
deriving DecidableEq, Repr

def drawScaleParams (sw : ScaleWidget) (rect : RectQ) : ScaleParams :=
  let vertical := sw.needlePosition == "left" || sw.needlePosition == "right"
  let flip := sw.needlePosition == "left" || sw.needlePosition == "top"
  if vertical then
    if flip then
      { vertical := vertical, flip := flip, needleSize := sw.needleHeight,
        x1 := sw.needleWidth + 2, l1 := rect.width - (sw.needleWidth + 2),
        x2 := 0, l2 := sw.needleWidth }
    else
      { vertical := vertical, flip := flip, needleSize := sw.needleHeight,
        x1 := 0, l1 := rect.width - (sw.needleWidth + 2),
        x2 := rect.width - sw.needleWidth, l2 := sw.needleWidth }
  else
    if flip then
      { vertical := vertical, flip := flip, needleSize := sw.needleWidth,
        x1 := sw.needleHeight + 2, l1 := rect.height - (sw.needleHeight + 2),
        x2 := 0, l2 := sw.needleHeight }
    else
      { vertical := vertical, flip := flip, needleSize := sw.needleWidth,
        x1 := 0, l1 := rect.height - sw.needleHeight - 2,
        x2 := rect.height - sw.needleHeight, l2 := sw.needleHeight }

/-- One iteration of `drawScale`'s loop (lines 660–761): the tick segment of
the axis (when `y_min ≤ y_i ≤ y_max`) followed by the thumb/erase segment. -/
def scaleBlockOps (env : Env) (fuel : Nat) (style : Style) (P : ScaleParams)
    (y_min y_max y_value : ℤ) (s : ℚ) (y_offset : ℤ) (y_i : ℤ) : List LcdOp :=
  let y : ℤ := if P.vertical then y_offset - y_i else y_offset + y_i
  let line := fun (a len : ℚ) =>
    if P.vertical then LcdOp.drawHLine a (y : ℚ) len
    else LcdOp.drawVLine (y : ℚ) a len
  let borderC := getStylePropertyG env (fun st => st.borderColor) fuel style
  let bgC := getStylePropertyG env (fun st => st.backgroundColor) fuel style
  let fgC := getStylePropertyG env (fun st => st.color) fuel style
  (if y_min ≤ y_i ∧ y_i ≤ y_max then
    if jsModZero (y_i : ℚ) s then
      [LcdOp.setColor borderC, line P.x1 P.l1]
    else if jsModZero (y_i : ℚ) (s / 2) then
      [LcdOp.setColor borderC,
        if P.flip then line (P.x1 + P.l1 / 2) (P.l1 / 2) else line P.x1 (P.l1 / 2)]
    else if jsModZero (y_i : ℚ) (s / 10) then
      [LcdOp.setColor borderC,
        if P.flip then line (P.x1 + P.l1 - P.l1 / 4) (P.l1 / 4)
        else line P.x1 (P.l1 / 4)]
    else [LcdOp.setColor bgC, line P.x1 P.l1]
  else []) ++
  (let dd : ℤ := |y_i - y_value|
   if dd ≤ ⌊P.needleSize / 2⌋ then
     [LcdOp.setColor fgC,
       if P.flip then line P.x2 (P.l2 - (dd : ℚ))
       else line (P.x2 + (dd : ℚ)) (P.l2 - (dd : ℚ))] ++
     (if y_i ≠ y_value then
       [LcdOp.setColor bgC,
         if P.flip then line (P.x2 + P.l2 - (dd : ℚ)) (dd : ℚ)
         else line P.x2 (dd : ℚ)]
      else [])
   else [LcdOp.setColor bgC, line P.x2 P.l2])

/-- `drawScale(ctx, scaleWidget, rect, y_from, y_to, y_min, y_max, y_value,
f, d)`. -/
def drawScaleRender (env : Env) (fuel : Nat) (sw : ScaleWidget) (rect : RectQ)
    (y_from y_to y_min y_max y_value : ℤ) (f d : ℚ) : List LcdOp :=
  let P := drawScaleParams sw rect
  let s := 10 * f / d
  let y_offset : ℤ :=
    if P.vertical then
      ⌊rect.height - 1 - (rect.height - ((y_max : ℚ) - (y_min : ℚ))) / 2⌋
    else ⌊(rect.width - ((y_max : ℚ) - (y_min : ℚ))) / 2⌋
  (intRangeIncl y_from y_to).flatMap
    (scaleBlockOps env fuel sw.style P y_min y_max y_value s y_offset)

/-- The numbers `drawScaleWidget` derives before calling `drawScale`
(lines 777–811).  `value` is the constant 0 — the bound data value is not
read.  Division by `max = 0` (JS `Infinity`) is modelled as 0; the claims
supply data with `max > 0`. -/
structure ScaleWidgetComputed where
  min : ℚ
  max : ℚ
  value : ℚ
  needleSize : ℚ
  f : ℚ
  d : ℚ
  y_min : ℤ
  y_max : ℤ
  y_value : ℤ
  y_from_min : ℤ
  y_from_max : ℤ
deriving DecidableEq, Repr

def scaleWidgetComputed (de : DataEnv) (sw : ScaleWidget) (rect : RectQ) :
    ScaleWidgetComputed :=
  let value : ℚ := 0
  let mn : ℚ := match sw.data with
    | none => 0
    | some ref => (mapGet de.mins ref).getD 0
  let mx : ℚ := match sw.data with
    | none => 0
    | some ref => (mapGet de.maxs ref).getD 0
  let vertical := sw.needlePosition == "left" || sw.needlePosition == "right"
  let needleSize := if vertical then sw.needleHeight else sw.needleWidth
  let f0 : ℚ :=
    if vertical then ((⌊(rect.height - needleSize) / mx⌋ : ℤ) : ℚ)
    else ((⌊(rect.width - needleSize) / mx⌋ : ℤ) : ℚ)
  let fd : ℚ × ℚ := if mx > 10 then (f0, 1) else (10 * (f0 / 10), 10)
  let y_min := jsRound (mn * fd.1)
  let y_max := jsRound (mx * fd.1)
  let y_value := jsRound (value * fd.1)
  { min := mn, max := mx, value := value, needleSize := needleSize,
    f := fd.1, d := fd.2, y_min := y_min, y_max := y_max, y_value := y_value,
    y_from_min := y_min - ⌊needleSize / 2⌋,
    y_from_max := y_max + ⌊needleSize / 2⌋ }

def drawScaleWidgetRender (env : Env) (fuel : Nat) (de : DataEnv)
    (sw : ScaleWidget) (rect : RectQ) : List LcdOp :=
  let c := scaleWidgetComputed de sw rect
  [LcdOp.setColor (getStylePropertyG env (fun st => st.backgroundColor) fuel sw.style),
   LcdOp.fillRect 0 0 (rect.width - 1) (rect.height - 1) 0] ++
  drawScaleRender env fuel sw rect c.y_from_min c.y_from_max c.y_min c.y_max
    c.y_value c.f c.d

/-! ## The bar-graph widget (`draw.tsx` lines 817–932) -/

/-- `Math.round((value * d) / (max - min))`, clamped into `[0, d]` — the
nested `calcPos` of `drawBarGraphWidget` (lines 843–852).  Note the value is
scaled by `d / (max - min)` without first subtracting `min`. -/
def jsCalcPos (value mn mx d : ℚ) : ℚ :=
  let pos0 : ℚ := ((jsRound (value * d / (mx - mn))) : ℤ)
  let pos1 := if pos0 < 0 then 0 else pos0
  if pos1 > d then d else pos1

/-- The position the claim describes — the value normalized against
`[min, max]` (`(value - min) / (max - min)`), scaled to `d` and clamped —
stated from the spec's words for comparison with the source's `jsCalcPos`. -/
def specNormalizedPos (value mn mx d : ℚ) : ℚ :=
  let pos0 : ℚ := ((jsRound ((value - mn) * d / (mx - mn))) : ℤ)
  let pos1 := if pos0 < 0 then 0 else pos0
  if pos1 > d then d else pos1

/-- JS `parseFloat`, modelled for decimal literals (optional sign, integer
and fraction digits; the exponent form does not occur in this repository's
data).  `none` is `NaN`. -/
def takeDigits : List Char → List Char × List Char
  | [] => ([], [])
  | c :: rest =>
    if '0' ≤ c ∧ c ≤ '9' then
      let p := takeDigits rest
      (c :: p.1, p.2)
    else ([], c :: rest)

def digitsToNat (l : List Char) : Nat :=
  l.foldl (fun acc c => 10 * acc + (c.toNat - '0'.toNat)) 0

def jsParseFloat (s : String) : Option ℚ :=
  let l := s.data.dropWhile (fun c => c = ' ')
  let signRest : ℚ × List Char := match l with
    | '-' :: r => (-1, r)
    | '+' :: r => (1, r)
    | _ => (1, l)
  let ip := takeDigits signRest.2
  let fp := match ip.2 with
    | '.' :: r => takeDigits r
    | _ => ([], ip.2)
  if ip.1.isEmpty ∧ fp.1.isEmpty then none
  else
    some (signRest.1 *
      ((digitsToNat ip.1 : ℚ) + (digitsToNat fp.1 : ℚ) / ((10 : ℚ) ^ fp.1.length)))

/-- One threshold line (the nested `drawLine` of `drawBarGraphWidget`,
lines 907–926). -/
def barGraphLineOps (env : Env) (fuel : Nat) (de : DataEnv)
    (bw : BarGraphWidget) (rect : RectQ) (mn mx d : ℚ)
    (lineData : Option String) (lineStyle : Style) : List LcdOp :=
  let v : ℚ := match lineData with
    | none => 0
    | some ld => ((mapGet de.vals ld).bind jsParseFloat).getD 0
  let p0 := jsCalcPos v mn mx d
  let p := if p0 = d then d - 1 else p0
  [LcdOp.setColor (getStylePropertyG env (fun s => s.color) fuel lineStyle)] ++
  (if bw.orientation == "left-right" then
    [LcdOp.drawVLine p 0 (rect.height - 1)]
   else if bw.orientation == "right-left" then
    [LcdOp.drawVLine (rect.width - p) 0 (rect.height - 1)]
   else if bw.orientation == "top-bottom" then
    [LcdOp.drawHLine 0 p (rect.width - 1)]
   else [LcdOp.drawHLine 0 (rect.height - p) (rect.width - 1)])

def drawBarGraphRender (env : Env) (fuel : Nat) (de : DataEnv)
    (bw : BarGraphWidget) (rect : RectQ) : List LcdOp :=
  let mn : ℚ := match bw.data with
    | none => 0
    | some ref => (mapGet de.mins ref).getD 0
  let mx : ℚ := match bw.data with
    | none => 0
    | some ref => (mapGet de.maxs ref).getD 0
  let valueText : String := match bw.data with
    | none => "0"
    | some ref => jsStrOr (mapGet de.vals ref) "0"
  let value : ℚ := (jsParseFloat valueText).getD 0
  let horizontal := bw.orientation == "left-right" ||
    bw.orientation == "right-left"
  let d := if horizontal then rect.width else rect.height
  let pos := jsCalcPos value mn mx d
  let fg := getStylePropertyG env (fun s => s.color) fuel bw.style
  let bg := getStylePropertyG env (fun s => s.backgroundColor) fuel bw.style
  (if bw.orientation == "left-right" then
    [LcdOp.setColor fg, LcdOp.fillRect 0 0 (pos - 1) (rect.height - 1) 0,
     LcdOp.setColor bg, LcdOp.fillRect pos 0 (rect.width - 1) (rect.height - 1) 0]
   else if bw.orientation == "right-left" then
    [LcdOp.setColor bg,
     LcdOp.fillRect 0 0 (rect.width - pos - 1) (rect.height - 1) 0,
     LcdOp.setColor fg,
     LcdOp.fillRect (rect.width - pos) 0 (rect.width - 1) (rect.height - 1) 0]
   else if bw.orientation == "top-bottom" then
    [LcdOp.setColor fg, LcdOp.fillRect 0 0 (rect.width - 1) (pos - 1) 0,
     LcdOp.setColor bg, LcdOp.fillRect 0 pos (rect.width - 1) (rect.height - 1) 0]
   else
    [LcdOp.setColor bg,
     LcdOp.fillRect 0 0 (rect.width - 1) (rect.height - pos - 1) 0,
     LcdOp.setColor fg,
     LcdOp.fillRect 0 (rect.height - pos) (rect.width - 1) (rect.height - 1) 0]) ++
  (if horizontal then
    match styleGetFont env fuel bw.textStyle with
    | none => []
    | some font =>
      let w0 := measureStr valueText font rect.width
      let padding :=
        (getStylePropertyG env (fun s => s.paddingHorizontal) fuel bw.textStyle).getD 0
      let wText := w0 + padding
      if wText > 0 ∧ rect.height > 0 then
        if pos + wText ≤ rect.width then
          [LcdOp.drawTextImage valueText wText rect.height bw.textStyle false
            bg pos 0]
        else
          [LcdOp.drawTextImage valueText wText rect.height bw.textStyle false
            fg (pos - wText - padding) 0]
      else []
   else []) ++
  barGraphLineOps env fuel de bw rect mn mx d bw.line1Data bw.line1Style ++
  barGraphLineOps env fuel de bw rect mn mx d bw.line2Data bw.line2Style

/-! ### Claim C6

The "thumb" of the scale is the mark painted in the style's foreground color
(`"color"`); within `drawScale` the foreground color is set only in the thumb
branch, so — when the three resolved colors are distinct — the thumb's
segments are exactly the line operations issued while the current lcd color is
the foreground color. -/

/-- The line operations issued while the current color equals `target`
(`lcd.setColor` is module state; `cur` is the color on entry). -/
def collectLines (target : Option String) :
    List LcdOp → Option String → List LcdOp
  | [], _ => []
  | op :: rest, cur =>
    match op with
    | LcdOp.setColor c => collectLines target rest c
    | LcdOp.drawHLine a b l =>
      (if cur = target then [LcdOp.drawHLine a b l] else []) ++
        collectLines target rest cur
    | LcdOp.drawVLine a b l =>
      (if cur = target then [LcdOp.drawVLine a b l] else []) ++
        collectLines target rest cur
    | _ => collectLines target rest cur

/-- The color state after a list of operations. -/
def finalColor : List LcdOp → Option String → Option String
  | [], cur => cur
  | op :: rest, cur =>
    match op with
    | LcdOp.setColor c => finalColor rest c
    | _ => finalColor rest cur

theorem collectLines_append (t : Option String) (l₁ l₂ : List LcdOp) :
    ∀ cur, collectLines t (l₁ ++ l₂) cur =
      collectLines t l₁ cur ++ collectLines t l₂ (finalColor l₁ cur) := by
  induction l₁ with
  | nil => intro cur; simp [collectLines, finalColor]
  | cons op rest ih =>
    intro cur
    cases op <;> simp [collectLines, finalColor, ih, List.append_assoc]

/-- The foreground (thumb) segment one loop iteration paints when the index
is within half a needle of the thumb's value. -/
def scaleThumbSeg (P : ScaleParams) (y_offset y_value : ℤ) (y_i : ℤ) : LcdOp :=
  let y : ℤ := if P.vertical then y_offset - y_i else y_offset + y_i
  let dd : ℤ := |y_i - y_value|
  if P.vertical then
    if P.flip then LcdOp.drawHLine P.x2 (y : ℚ) (P.l2 - (dd : ℚ))
    else LcdOp.drawHLine (P.x2 + (dd : ℚ)) (y : ℚ) (P.l2 - (dd : ℚ))
  else
    if P.flip then LcdOp.drawVLine (y : ℚ) P.x2 (P.l2 - (dd : ℚ))
    else LcdOp.drawVLine (y : ℚ) (P.x2 + (dd : ℚ)) (P.l2 - (dd : ℚ))

/-- One loop iteration's foreground segments: exactly the thumb segment when
`|y_i - y_value| ≤ ⌊needleSize/2⌋`, nothing otherwise (the ticks use the
border and background colors). -/
theorem collectLines_scaleBlock (env : Env) (fuel : Nat) (style : Style)
    (P : ScaleParams) (y_min y_max y_value : ℤ) (s : ℚ) (y_offset y_i : ℤ)
    (fg : Option String)
    (hfg : getStylePropertyG env (fun st => st.color) fuel style = fg)
    (hb : getStylePropertyG env (fun st => st.borderColor) fuel style ≠ fg)
    (hg : getStylePropertyG env (fun st => st.backgroundColor) fuel style ≠ fg)
    (cur : Option String) :
    collectLines fg
        (scaleBlockOps env fuel style P y_min y_max y_value s y_offset y_i)
        cur =
      if |y_i - y_value| ≤ ⌊P.needleSize / 2⌋ then
        [scaleThumbSeg P y_offset y_value y_i]
      else [] := by
  simp only [scaleBlockOps, scaleThumbSeg]
  split_ifs <;>
    simp_all [collectLines_append, collectLines, finalColor]

/-- Collecting one color over the whole loop. -/
theorem collectLines_flatMap (fg : Option String) (blockFn : ℤ → List LcdOp)
    (Pred : ℤ → Prop) [DecidablePred Pred] (segFn : ℤ → LcdOp)
    (hblock : ∀ (cur : Option String) (y_i : ℤ),
      collectLines fg (blockFn y_i) cur =
        if Pred y_i then [segFn y_i] else []) :
    ∀ (idxs : List ℤ) (cur : Option String),
      collectLines fg (idxs.flatMap blockFn) cur =
        (idxs.filter (fun i => decide (Pred i))).map segFn := by
  intro idxs
  induction idxs with
  | nil => intro cur; simp [collectLines]
  | cons y rest ih =>
    intro cur
    rw [List.flatMap_cons, collectLines_append, hblock, ih]
    by_cases hp : Pred y <;> simp [hp, List.filter_cons]

theorem drawScaleParams_vertical (sw : ScaleWidget) (rect : RectQ) :
    (drawScaleParams sw rect).vertical =
      (sw.needlePosition == "left" || sw.needlePosition == "right") := by
  rw [drawScaleParams]
  split_ifs <;> rfl

theorem drawScaleParams_flip (sw : ScaleWidget) (rect : RectQ) :
    (drawScaleParams sw rect).flip =
      (sw.needlePosition == "left" || sw.needlePosition == "top") := by
  rw [drawScaleParams]
  split_ifs <;> rfl

/-- The conclusion of claim C6 (amended): the foreground (thumb) segments of
`drawScaleWidget`'s trace are exactly the loop indices within half a needle
of `y_value`; the widget passes `y_value = round(0 · f) = 0` — the constant 0,
not the bound data value; and orientation/flip are derived from the
four-valued `needlePosition` (vertical iff left/right, flipped iff
left/top). -/
def C6Conclusion (env : Env) (fuel : Nat) (de : DataEnv) (sw : ScaleWidget)
    (rect : RectQ) (fg : Option String) : Prop :=
  (collectLines fg (drawScaleWidgetRender env fuel de sw rect) none =
    ((intRangeIncl (scaleWidgetComputed de sw rect).y_from_min
        (scaleWidgetComputed de sw rect).y_from_max).filter
      (fun y_i =>
        decide (|y_i - (scaleWidgetComputed de sw rect).y_value| ≤
          ⌊(drawScaleParams sw rect).needleSize / 2⌋))).map
      (scaleThumbSeg (drawScaleParams sw rect)
        (if (drawScaleParams sw rect).vertical then
          ⌊rect.height - 1 -
            (rect.height - (((scaleWidgetComputed de sw rect).y_max : ℚ) -
              ((scaleWidgetComputed de sw rect).y_min : ℚ))) / 2⌋
         else
          ⌊(rect.width - (((scaleWidgetComputed de sw rect).y_max : ℚ) -
            ((scaleWidgetComputed de sw rect).y_min : ℚ))) / 2⌋)
        (scaleWidgetComputed de sw rect).y_value)) ∧
  (scaleWidgetComputed de sw rect).y_value = 0 ∧
  (drawScaleParams sw rect).vertical =
    (sw.needlePosition == "left" || sw.needlePosition == "right") ∧
  (drawScaleParams sw rect).flip =
    (sw.needlePosition == "left" || sw.needlePosition == "top")

/-- C6 (amended), proved: `fg`/border/background are the style's resolved
colors, pairwise distinct from `fg` so the thumb is identifiable by color. -/
theorem scale_thumb_centered_at_zero (env : Env) (fuel : Nat) (de : DataEnv)
    (sw : ScaleWidget) (rect : RectQ) (fg : Option String)
    (hfg : getStylePropertyG env (fun st => st.color) fuel sw.style = fg)
    (hb : getStylePropertyG env (fun st => st.borderColor) fuel sw.style ≠ fg)
    (hg : getStylePropertyG env (fun st => st.backgroundColor) fuel sw.style ≠ fg) :
    C6Conclusion env fuel de sw rect fg := by
  refine ⟨?_, ?_, drawScaleParams_vertical sw rect, drawScaleParams_flip sw rect⟩
  · simp only [drawScaleWidgetRender, drawScaleRender, collectLines]
    exact collectLines_flatMap fg _ _ _
      (fun cur y_i =>
        collectLines_scaleBlock env fuel sw.style (drawScaleParams sw rect)
          (scaleWidgetComputed de sw rect).y_min
          (scaleWidgetComputed de sw rect).y_max
          (scaleWidgetComputed de sw rect).y_value
          (10 * (scaleWidgetComputed de sw rect).f /
            (scaleWidgetComputed de sw rect).d)
          _ y_i fg hfg hb hg cur) _ _
  · simp only [scaleWidgetComputed, jsRound]
    norm_num

def scaleStyle : Style :=
  ⟨"scale", none, none, none, none, none, some "red", some "white",
    some "blue", some 0, some 0, some 0, some 0⟩

def scaleWidgetFixture : ScaleWidget := ⟨some "v", "bottom", 3, 4, scaleStyle⟩

def scaleDataEnv : DataEnv := ⟨[("v", "4")], [("v", 0)], [("v", 5)]⟩

def scaleRect : RectQ := ⟨8, 10⟩

/-- Witness for C6 at a concrete input. -/
theorem scale_thumb_centered_at_zero_witness :
    (getStylePropertyG envFixture (fun st => st.color) 1 scaleStyle =
        some "red" ∧
      getStylePropertyG envFixture (fun st => st.borderColor) 1 scaleStyle ≠
        some "red" ∧
      getStylePropertyG envFixture (fun st => st.backgroundColor) 1 scaleStyle ≠
        some "red") ∧
    C6Conclusion envFixture 1 scaleDataEnv scaleWidgetFixture scaleRect
      (some "red") :=
  ⟨⟨by decide, by decide, by decide⟩,
    scale_thumb_centered_at_zero envFixture 1 scaleDataEnv scaleWidgetFixture
      scaleRect (some "red") (by decide) (by decide) (by decide)⟩

/-- C6 counterexample: the widget binds data `"v"` with value 4, min 0, max 5
on an 8×10 rectangle (`needlePosition = "bottom"`, so `f = 1`,
`y_offset = 1`).  The bound value scaled by `f` and rounded is the loop index
4, i.e. the axis row `y_offset + 4 = 5`, but the foreground (thumb) segments
of the trace all lie at rows 0–2 — centered at index 0, not at the bound data
value: the claim as stated is false at this input. -/
theorem scale_thumb_ignores_bound_value :
    collectLines (some "red")
        (drawScaleWidgetRender envFixture 1 scaleDataEnv scaleWidgetFixture
          scaleRect) none =
      [LcdOp.drawVLine 0 7 3, LcdOp.drawVLine 1 6 4, LcdOp.drawVLine 2 7 3] ∧
    mapGet scaleDataEnv.vals "v" = some "4" ∧
    jsRound (4 * (scaleWidgetComputed scaleDataEnv scaleWidgetFixture
      scaleRect).f) = 4 ∧
    (scaleWidgetComputed scaleDataEnv scaleWidgetFixture scaleRect).y_value
      = 0 ∧
    List.all
      [LcdOp.drawVLine 0 7 3, LcdOp.drawVLine 1 6 4, LcdOp.drawVLine 2 7 3]
      (fun op => match op with
        | LcdOp.drawVLine x _ _ => decide (x ≠ 5)
        | _ => true) = true := by
  have eb1 : (("bottom" : String) == "left") = false := by decide
  have eb2 : (("bottom" : String) == "right") = false := by decide
  have eb3 : (("bottom" : String) == "top") = false := by decide
  have hrange : intRangeIncl (-1) 6 = [-1, 0, 1, 2, 3, 4, 5, 6] := by decide
  refine ⟨?_, by decide, ?_, ?_, by norm_num⟩
  · norm_num +decide [drawScaleWidgetRender, drawScaleRender, drawScaleParams,
      scaleWidgetComputed, scaleBlockOps, collectLines,
      jsModZero, jsTrunc, jsRound, mapGet, getStylePropertyG, inheritTarget,
      envFixture, scaleStyle, scaleWidgetFixture, scaleDataEnv, scaleRect,
      defaultStyleFixture, eb1, eb2, eb3, hrange, List.flatMap_cons,
      List.flatMap_nil]
  · norm_num +decide [scaleWidgetComputed, jsRound, mapGet, scaleDataEnv,
      scaleWidgetFixture, scaleRect, eb1, eb2, eb3]
  · norm_num +decide [scaleWidgetComputed, jsRound, mapGet, scaleDataEnv,
      scaleWidgetFixture, scaleRect, eb1, eb2, eb3]

/-! ### Claim C7 -/

/-- The bound value of a bar-graph widget as the source derives it. -/
def barValue (de : DataEnv) (bw : BarGraphWidget) : ℚ :=
  (jsParseFloat
    (match bw.data with
      | none => "0"
      | some ref => jsStrOr (mapGet de.vals ref) "0")).getD 0

def barMin (de : DataEnv) (bw : BarGraphWidget) : ℚ :=
  match bw.data with
  | none => 0
  | some ref => (mapGet de.mins ref).getD 0

def barMax (de : DataEnv) (bw : BarGraphWidget) : ℚ :=
  match bw.data with
  | none => 0
  | some ref => (mapGet de.maxs ref).getD 0

/-- C7 counterexample: with `min = 50`, `max = 100`, `value = 50` and
`d = 10`, normalizing against `[min, max]` gives position 0, but the code
computes `round(value·d/(max-min)) = 10 = d` (the minimum is never
subtracted), and the trace fills the whole bar. -/
def barWidgetFixture : BarGraphWidget :=
  ⟨some "v", "left-right", plainStyle, plainStyle, none, none, plainStyle,
    plainStyle⟩

def barDataEnv : DataEnv := ⟨[("v", "50")], [("v", 50)], [("v", 100)]⟩

theorem barGraph_pos_not_normalized :
    jsCalcPos 50 50 100 10 = 10 ∧
    specNormalizedPos 50 50 100 10 = 0 ∧
    (10 : ℚ) ≠ 0 ∧
    (drawBarGraphRender envFixture 1 barDataEnv barWidgetFixture
        ⟨10, 4⟩).take 2 =
      [LcdOp.setColor (some "red"), LcdOp.fillRect 0 0 9 3 0] := by
  refine ⟨?_, ?_, by norm_num, ?_⟩
  · norm_num [jsCalcPos, jsRound]
  · norm_num [specNormalizedPos, jsRound]
  · have h5 : '5'.toNat = 53 := rfl
    have h0 : '0'.toNat = 48 := rfl
    norm_num +decide [drawBarGraphRender, barWidgetFixture, barDataEnv,
      envFixture, plainStyle, defaultStyleFixture, mapGet, jsStrOr,
      jsParseFloat, takeDigits, digitsToNat, jsCalcPos, jsRound,
      getStylePropertyG, styleGetFont, inheritTarget, List.take, h5, h0]

/-- C7 (amended): the filled extent position equals
`round(value · d / (max - min))` clamped into `[0, d]` — the minimum is not
subtracted before scaling — where `d` is the bar's axis length; the position
therefore never exceeds the bitmap bounds, and in particular `min = 0`,
`max = 100`, `value = 150` yields position `d` exactly. -/
theorem barGraph_fill_position :
    (∀ (value mn mx d : ℚ), 0 ≤ d →
      0 ≤ jsCalcPos value mn mx d ∧ jsCalcPos value mn mx d ≤ d) ∧
    (∀ (env : Env) (fuel : Nat) (de : DataEnv) (bw : BarGraphWidget)
        (rect : RectQ),
      (bw.orientation = "left-right" →
        (drawBarGraphRender env fuel de bw rect).take 4 =
          [LcdOp.setColor (getStylePropertyG env (fun s => s.color) fuel bw.style),
           LcdOp.fillRect 0 0
             (jsCalcPos (barValue de bw) (barMin de bw) (barMax de bw)
               rect.width - 1) (rect.height - 1) 0,
           LcdOp.setColor
             (getStylePropertyG env (fun s => s.backgroundColor) fuel bw.style),
           LcdOp.fillRect
             (jsCalcPos (barValue de bw) (barMin de bw) (barMax de bw)
               rect.width) 0 (rect.width - 1) (rect.height - 1) 0]) ∧
      (bw.orientation = "right-left" →
        (drawBarGraphRender env fuel de bw rect).take 4 =
          [LcdOp.setColor
             (getStylePropertyG env (fun s => s.backgroundColor) fuel bw.style),
           LcdOp.fillRect 0 0
             (rect.width -
               jsCalcPos (barValue de bw) (barMin de bw) (barMax de bw)
                 rect.width - 1) (rect.height - 1) 0,
           LcdOp.setColor (getStylePropertyG env (fun s => s.color) fuel bw.style),
           LcdOp.fillRect
             (rect.width -
               jsCalcPos (barValue de bw) (barMin de bw) (barMax de bw)
                 rect.width) 0 (rect.width - 1) (rect.height - 1) 0]) ∧
      (bw.orientation = "top-bottom" →
        (drawBarGraphRender env fuel de bw rect).take 4 =
          [LcdOp.setColor (getStylePropertyG env (fun s => s.color) fuel bw.style),
           LcdOp.fillRect 0 0 (rect.width - 1)
             (jsCalcPos (barValue de bw) (barMin de bw) (barMax de bw)
               rect.height - 1) 0,
           LcdOp.setColor
             (getStylePropertyG env (fun s => s.backgroundColor) fuel bw.style),
           LcdOp.fillRect 0
             (jsCalcPos (barValue de bw) (barMin de bw) (barMax de bw)
               rect.height) (rect.width - 1) (rect.height - 1) 0]) ∧
      (bw.orientation = "bottom-top" →
        (drawBarGraphRender env fuel de bw rect).take 4 =
          [LcdOp.setColor
             (getStylePropertyG env (fun s => s.backgroundColor) fuel bw.style),
           LcdOp.fillRect 0 0 (rect.width - 1)
             (rect.height -
               jsCalcPos (barValue de bw) (barMin de bw) (barMax de bw)
                 rect.height - 1) 0,
           LcdOp.setColor (getStylePropertyG env (fun s => s.color) fuel bw.style),
           LcdOp.fillRect 0
             (rect.height -
               jsCalcPos (barValue de bw) (barMin de bw) (barMax de bw)
                 rect.height) (rect.width - 1) (rect.height - 1) 0])) ∧
    (∀ dz : ℤ, 0 ≤ dz → jsCalcPos 150 0 100 (dz : ℚ) = (dz : ℚ)) := by
  refine ⟨?_, ?_, ?_⟩
  · intro value mn mx d hd
    simp only [jsCalcPos]
    constructor <;> split_ifs <;> linarith
  · intro env fuel de bw rect
    refine ⟨?_, ?_, ?_, ?_⟩ <;> intro horient <;>
      · simp only [drawBarGraphRender, horient, barValue, barMin, barMax]
        norm_num +decide [List.take]
  · intro dz hdz
    have h0 : (0 : ℚ) ≤ (dz : ℚ) := by exact_mod_cast hdz
    have hround : dz ≤ jsRound (150 * (dz : ℚ) / 100) := by
      rw [jsRound, Int.le_floor]
      linarith
    have hpos0 : (dz : ℚ) ≤ ((jsRound (150 * (dz : ℚ) / 100) : ℤ) : ℚ) := by
      exact_mod_cast hround
    simp only [jsCalcPos]
    split_ifs with h1 h2 <;> linarith

/-! ### Claim C10 -/

/-- C10: `ScpiEnumMember.check` reports the "is not unique" error only on a
member that has an earlier sibling (lower index) with the same name; the
first occurrence of a duplicated name gets no uniqueness message; and a
member whose name is unset (falsy) gets the "not set" message instead. -/
theorem scpiEnumMemberCheck_reports_later_duplicates
    (arr : List ScpiEnumMember) (idx : Nat) :
    (∀ n, CheckMsg.notUnique n ∈ scpiEnumMemberCheck arr idx →
      ∃ j, j < idx ∧ j < arr.length ∧
        (arr.getD j ⟨none, none⟩).name = (arr.getD idx ⟨none, none⟩).name) ∧
    ((∀ j, j < idx →
        (arr.getD j ⟨none, none⟩).name ≠ (arr.getD idx ⟨none, none⟩).name) →
      ∀ n, CheckMsg.notUnique n ∉ scpiEnumMemberCheck arr idx) ∧
    (truthyName (arr.getD idx ⟨none, none⟩).name = false →
      scpiEnumMemberCheck arr idx = [CheckMsg.propertyNotSet "name"]) := by
  have key : ∀ n, CheckMsg.notUnique n ∈ scpiEnumMemberCheck arr idx →
      ∃ j, j < idx ∧ j < arr.length ∧
        (arr.getD j ⟨none, none⟩).name = (arr.getD idx ⟨none, none⟩).name := by
    intro n hmem
    rw [scpiEnumMemberCheck] at hmem
    by_cases ht : truthyName (arr.getD idx ⟨none, none⟩).name
    · rw [if_pos ht] at hmem
      by_cases hcond : lastOtherIndex arr idx (arr.getD idx ⟨none, none⟩).name ≠ -1 ∧
          thisIndexOf arr idx >
            lastOtherIndex arr idx (arr.getD idx ⟨none, none⟩).name
      · rcases foldl_mark_last
            (fun i => i ≠ idx ∧
              (arr.getD i ⟨none, none⟩).name = (arr.getD idx ⟨none, none⟩).name)
            arr.length with ⟨heq, _⟩ | ⟨j, hj, hlt, hpj⟩
        · exact absurd heq hcond.1
        · have hoi : lastOtherIndex arr idx (arr.getD idx ⟨none, none⟩).name =
              (j : Int) := hj
          have hthis : thisIndexOf arr idx = idx := by
            by_cases hlen : idx < arr.length
            · exact thisIndexOf_lt arr idx hlen
            · exfalso
              have := hcond.2
              rw [thisIndexOf_ge arr idx (by omega), hoi] at this
              omega
          have hgt := hcond.2
          rw [hthis, hoi] at hgt
          exact ⟨j, by exact_mod_cast hgt, hlt, hpj.2⟩
      · rw [if_neg hcond] at hmem
        simp at hmem
    · rw [if_neg (by simpa using ht)] at hmem
      simp at hmem
  refine ⟨key, ?_, ?_⟩
  · intro hfree n hmem
    obtain ⟨j, hj1, _, hj3⟩ := key n hmem
    exact hfree j hj1 hj3
  · intro ht
    rw [scpiEnumMemberCheck]
    rw [if_neg (by simpa using ht)]

end Studio
